import Mathlib

/-!
# Smart Meeting Scheduler: slot search and scoring

A shallow embedding of `service/scheduler.go` (`ScheduleEvent`,
`GetCalendarEvents`) and `service/scoreslot.go` (`ScoreSlot`, `absDuration`).

* `time.Time` is an absolute instant in nanoseconds together with the zone
  offset (seconds east of UTC) it is displayed in.  The instants the program
  meets come from RFC3339 strings and from the calendar store, far inside the
  range of the 64-bit seconds counter of `time.Time`, so instants are
  unbounded integers.
* `time.Duration` is a signed 64-bit count of nanoseconds.  Durations are
  integers, and the three places where the program computes one
  (`Duration(n) * time.Minute`, `Time.Sub`, unary minus in `absDuration`) reduce
  or saturate to the 64-bit range as Go does.
* `time.Parse`, `sort.Slice` and `time.Now` are library calls: they are
  parameters of `ScheduleEvent`.
* The calendar store (`database.DB`) is the rows of the events table and of the
  users table, with one flag for a store whose queries fail and one for a store
  whose inserts fail; an insert also fails on the unique `event_code` and on
  the foreign key from `user_id` to the `user_code` of the users table.  The
  error of a store call is ignored by `ScheduleEvent` and returned by
  `GetCalendarEvents`, as in the source.
-/

namespace SmartScheduler

/-! ## Instants and durations -/

/-- A `time.Duration`: nanoseconds, a signed 64-bit integer in Go. -/
abbrev Duration := Int

/-- The constant `time.Minute`, in nanoseconds. -/
def Minute : Duration := 60000000000

/-- The smallest `time.Duration`, `-1 << 63`. -/
def minDuration : Duration := -9223372036854775808

/-- The largest `time.Duration`, `1<<63 - 1`. -/
def maxDuration : Duration := 9223372036854775807

/-- Two's-complement reduction of an integer to the signed 64-bit range. -/
def wrap64 (x : Int) : Int := (x + 9223372036854775808) % 18446744073709551616 - 9223372036854775808

/-- A `time.Time` without monotonic reading: the instant in nanoseconds since
the Unix epoch, and the offset in seconds east of UTC of its location. -/
structure Time where
  ns : Int
  offset : Int
deriving DecidableEq, Repr

namespace Time

/-- The zero value `time.Time{}`: January 1, year 1, 00:00:00 UTC. -/
def zero : Time := ⟨-62135596800000000000, 0⟩

/-- The method `t.Before(u)`: the instant t is before u. -/
def Before (t u : Time) : Bool := decide (t.ns < u.ns)

/-- The method `t.After(u)`: the instant t is after u. -/
def After (t u : Time) : Bool := decide (t.ns > u.ns)

/-- The method `t.Equal(u)`: same instant, whatever the locations. -/
def Equal (t u : Time) : Bool := decide (t.ns = u.ns)

/-- The method `t.Add(d)`: the instant moves by d, the location is kept. -/
def Add (t : Time) (d : Duration) : Time := ⟨t.ns + d, t.offset⟩

/-- The method `t.Sub(u)`: the duration t-u, saturated at the largest and the
smallest `time.Duration` when the difference does not fit. -/
def Sub (t u : Time) : Duration :=
  if t.ns - u.ns < minDuration then minDuration
  else if t.ns - u.ns > maxDuration then maxDuration
  else t.ns - u.ns

/-- The method `t.Hour()`: the hour of the day, in `[0, 23]`, of the wall
clock of the instant at the offset of t. -/
def Hour (t : Time) : Int := ((t.ns / 1000000000 + t.offset) % 86400) / 3600

end Time

/-! ## Data types of the repository -/

/-- The type `repository.Slot`. -/
structure Slot where
  Start : Time
  End : Time
deriving DecidableEq, Repr

/-- The type `model.Event`. -/
structure Event where
  ID : Nat
  EventCode : String
  UserID : String
  Title : String
  StartTime : Time
  EndTime : Time
deriving DecidableEq, Repr

/-- The anonymous struct of the field `TimeRange` of `repository.ScheduleRequest`. -/
structure TimeRange where
  Start : String
  End : String
deriving DecidableEq, Repr

/-- The type `repository.ScheduleRequest`. -/
structure ScheduleRequest where
  Title : String
  ParticipantIds : List String
  DurationMinutes : Int
  TimeRange : TimeRange
deriving DecidableEq, Repr

/-- The type `repository.ScheduledMeetingResponse`.  `StartTime` and `EndTime`
hold the instants of the chosen slot that the source renders with
`Format(time.RFC3339)`. -/
structure ScheduledMeetingResponse where
  MeetingID : String
  Title : String
  ParticipantIds : List String
  StartTime : Time
  EndTime : Time
deriving DecidableEq, Repr

/-- The local type `scoredSlot` of `ScheduleEvent`: a slot with its score. -/
structure scoredSlot where
  Slot : Slot
  score : Int
deriving DecidableEq, Repr

/-- The type `model.User`, without the association field `Events`, which is
not a column: it makes `AutoMigrate` create the foreign key from the column
`user_id` of the events table to the column `user_code` of the users table. -/
structure User where
  ID : Nat
  UserCode : String
  Name : String
deriving DecidableEq, Repr

/-! ## The calendar store -/

/-- The store behind `database.DB`: the rows of the events table, the primary
key that the next stored row gets (rows are numbered in the order they are
stored), whether the store answers the queries, the rows of the users table,
and whether the store accepts the inserts.  A store
that is down has both flags false; a query may also fail on a store that
accepts the inserts that follow. -/
structure DB where
  events : List Event
  nextID : Nat
  up : Bool
  users : List User
  writable : Bool
deriving DecidableEq, Repr

namespace DB

/-- The query `Where("user_id = ? AND start_time < ? AND end_time > ?", userId,
endTime, startTime).Find(&events)`: the rows found; none when the query fails
(the error is left in the result, which `ScheduleEvent` drops). -/
def FindOverlapping (db : DB) (userId : String) (endTime startTime : Time) : List Event :=
  if db.up then
    db.events.filter (fun e => decide (e.UserID = userId) && e.StartTime.Before endTime && e.EndTime.After startTime)
  else []

/-- The query `Where("user_id = ?", userId).Find(&events)`. -/
def FindByUser (db : DB) (userId : String) : List Event :=
  if db.up then db.events.filter (fun e => decide (e.UserID = userId)) else []

/-- The call `Create(&model.Event{...})`: the row is added with the next
primary key, unless the store does not accept the insert, no row of the users
table has the `user_id` of the event as its `user_code` (the foreign key of the
association `Events` of `model.User`), or the column `event_code`, declared
`unique`, already holds this code. -/
def Create (db : DB) (e : Event) : DB :=
  if db.writable && db.users.any (fun u => decide (u.UserCode = e.UserID)) &&
      !(db.events.any (fun x => decide (x.EventCode = e.EventCode))) then
    { db with events := db.events ++ [{ e with ID := db.nextID }], nextID := db.nextID + 1 }
  else db

end DB

/-! ## `scoreslot.go` -/

/-- The function `absDuration`: `-d` is computed in 64 bits. -/
def absDuration (d : Duration) : Duration :=
  if d < 0 then wrap64 (-d) else d

/-- The function `ScoreSlot`. -/
def ScoreSlot (slot : Slot) (userEvents : List Slot) : Int :=
  let score : Int := 0
  let startHour := slot.Start.Hour
  let score :=
    if startHour ≥ 16 then score + 3
    else if startHour ≥ 12 then score + 2
    else if startHour ≥ 9 then score + 1
    else score + 4
  let buffer := 15 * Minute
  let score := userEvents.foldl (fun score event =>
    if absDuration (slot.Start.Sub event.End) < buffer ∨ absDuration (event.Start.Sub slot.End) < buffer then
      score + 2
    else score) score
  let score := userEvents.foldl (fun score event =>
    let gapBefore := slot.Start.Sub event.End
    let gapAfter := event.Start.Sub slot.End
    let score := if gapBefore > 0 ∧ gapBefore < 30 * Minute then score + 1 else score
    if gapAfter > 0 ∧ gapAfter < 30 * Minute then score + 1 else score) score
  score

/-- The contribution of one event to the first loop of `ScoreSlot` (lines
25-29): 2 when the buffer condition holds. -/
def bufferPenalty (slot event : Slot) : Int :=
  if absDuration (slot.Start.Sub event.End) < 15 * Minute ∨
      absDuration (event.Start.Sub slot.End) < 15 * Minute then 2 else 0

/-- The contribution of one event to the second loop of `ScoreSlot` (lines
32-41): 1 for a small gap before, plus 1 for a small gap after. -/
def gapPenalty (slot event : Slot) : Int :=
  (if slot.Start.Sub event.End > 0 ∧ slot.Start.Sub event.End < 30 * Minute then 1 else 0) +
  (if event.Start.Sub slot.End > 0 ∧ event.Start.Sub slot.End < 30 * Minute then 1 else 0)

/-- The hour-of-day penalty of the spec: 4 for hours in `[0,9)`, 1 in `[9,12)`,
2 in `[12,16)`, 3 in `[16,24)`. -/
def hourBucket (h : Int) : Int :=
  if h < 9 then 4 else if h < 12 then 1 else if h < 16 then 2 else 3

/-- The adjacency penalty of a gap `g >= 0` between a candidate and a busy
interval, in the words of the spec: 2 for no gap (buffer penalty alone), 3 for
a gap below 15 minutes (buffer and small-gap penalty), 1 for a gap from 15 to
below 30 minutes (small-gap penalty alone), 0 from 30 minutes on. -/
def adjacencyByGap (g : Duration) : Int :=
  if g = 0 then 2 else if g < 15 * Minute then 3 else if g < 30 * Minute then 1 else 0

/-! ## `scheduler.go` -/

/-- The map `eventMap` of `ScheduleEvent` (`map[string][]repository.Slot`), as
the list of its entries. -/
abbrev EventMap := List (String × List Slot)

/-- The statement `eventMap[userId] = append(eventMap[userId], s)`. -/
def EventMap.append : EventMap → String → Slot → EventMap
  | [], userId, s => [(userId, [s])]
  | (k, v) :: rest, userId, s =>
    if k = userId then (k, v ++ [s]) :: rest
    else (k, v) :: EventMap.append rest userId s

/-- Lines 21-33 of `ScheduleEvent`: for every participant, in order, the
stored events overlapping the window are appended to the entry of the participant. -/
def loadEventMap (db : DB) (participantIds : List String) (startTime endTime : Time) : EventMap :=
  participantIds.foldl (fun eventMap userId =>
    (db.FindOverlapping userId endTime startTime).foldl (fun eventMap e =>
      eventMap.append userId ⟨e.StartTime, e.EndTime⟩) eventMap) []

/-- Lines 41-55 of `ScheduleEvent`: the flag `valid` after the two nested
loops over `eventMap`, which stop at the first event with
`ev.Start.Before(end) && ev.End.After(t)`. -/
def slotValid (eventMap : EventMap) (t end_ : Time) : Bool :=
  eventMap.all (fun entry => !(entry.2.any (fun ev => ev.Start.Before end_ && ev.End.After t)))

/-- The loop of lines 39-60 of `ScheduleEvent`, started at `t`, run for at most
`fuel` iterations. -/
def candidateLoop (eventMap : EventMap) (endTime : Time) (slotDuration : Duration) :
    Nat → Time → List Slot
  | 0, _ => []
  | fuel + 1, t =>
    if (t.Add slotDuration).Before endTime || (t.Add slotDuration).Equal endTime then
      let end_ := t.Add slotDuration
      let rest := candidateLoop eventMap endTime slotDuration fuel (t.Add (30 * Minute))
      if slotValid eventMap t end_ then ⟨t, end_⟩ :: rest else rest
    else []

/-- The loop variable `t` of lines 39-60 after k executions of the post
statement `t = t.Add(30 * time.Minute)`, started at `t`. -/
def Time.stepped (t : Time) : Nat → Time
  | 0 => t
  | k + 1 => (t.stepped k).Add (30 * Minute)

/-- The number of iterations of the loop of lines 39-60 started at `startTime`. -/
def loopFuel (startTime endTime : Time) (slotDuration : Duration) : Nat :=
  ((endTime.ns - (startTime.ns + slotDuration)) / (30 * Minute) + 1).toNat

/-- The slice `candidateSlots` after the loop of lines 39-60. -/
def candidateSlots (eventMap : EventMap) (startTime endTime : Time) (slotDuration : Duration) : List Slot :=
  candidateLoop eventMap endTime slotDuration (loopFuel startTime endTime slotDuration) startTime

/-- Lines 74-77 of `ScheduleEvent`: the score `s` of a candidate, the sum of
`ScoreSlot(slot, events)` over the entries of `eventMap`. -/
def totalScore (eventMap : EventMap) (slot : Slot) : Int :=
  eventMap.foldl (fun s entry => s + ScoreSlot slot entry.2) 0

/-- Lines 72-79 of `ScheduleEvent`: the slice `slots`. -/
def scoreSlots (eventMap : EventMap) (candidateSlots : List Slot) : List scoredSlot :=
  candidateSlots.map (fun slot => ⟨slot, totalScore eventMap slot⟩)

/-- Lines 94-102 of `ScheduleEvent`: one `Create` per participant, in order. -/
def createEvents (db : DB) (participantIds : List String) (meetingCode meetingTitle : String)
    (chosen : Slot) : DB :=
  participantIds.foldl (fun db userId =>
    db.Create ⟨0, meetingCode ++ "-" ++ userId, userId, meetingTitle, chosen.Start, chosen.End⟩) db

/-- The function `ScheduleEvent`.  Parameters: `parse` is
`time.Parse(time.RFC3339, ·)` (`none` when it returns an error), `sortSlice` is
`sort.Slice` with the comparison `slots[i].score < slots[j].score`, `now` is
`time.Now().Format("20060102150405")`, `db` is the store before the call.
The result is the returned pair, `Except.error` for a non-nil error, and the
store after the call.  An index out of range at `slots[0]` is a run-time panic
and appears as an error of its own. -/
def ScheduleEvent (parse : String → Option Time) (sortSlice : List scoredSlot → List scoredSlot)
    (now : String) (db : DB) (req : ScheduleRequest) :
    Except String ScheduledMeetingResponse × DB :=
  let startTime := (parse req.TimeRange.Start).getD Time.zero
  let endTime := (parse req.TimeRange.End).getD Time.zero
  let slotDuration : Duration := wrap64 (req.DurationMinutes * Minute)
  let eventMap := loadEventMap db req.ParticipantIds startTime endTime
  let candidateSlots := candidateSlots eventMap startTime endTime slotDuration
  if candidateSlots.length = 0 then
    (Except.error "no available time slot found for all participants", db)
  else
    let slots := sortSlice (scoreSlots eventMap candidateSlots)
    match slots with
    | [] => (Except.error "runtime error: index out of range [0] with length 0", db)
    | first :: _ =>
      let chosen := first.Slot
      let meetingCode := "meeting-" ++ now
      let meetingTitle := if req.Title = "" then "New Meeting" else req.Title
      let db := createEvents db req.ParticipantIds meetingCode meetingTitle chosen
      (Except.ok ⟨meetingCode, meetingTitle, req.ParticipantIds, chosen.Start, chosen.End⟩, db)

/-- The variable `startTime` of `ScheduleEvent`: the parsed start of the
window, the zero time when parsing fails (the error is dropped). -/
def windowStart (parse : String → Option Time) (req : ScheduleRequest) : Time :=
  (parse req.TimeRange.Start).getD Time.zero

/-- The variable `endTime` of `ScheduleEvent`. -/
def windowEnd (parse : String → Option Time) (req : ScheduleRequest) : Time :=
  (parse req.TimeRange.End).getD Time.zero

/-- The variable `slotDuration` of `ScheduleEvent`: the 64-bit product
`time.Duration(req.DurationMinutes) * time.Minute`. -/
def slotDurationOf (req : ScheduleRequest) : Duration :=
  wrap64 (req.DurationMinutes * Minute)

/-- The map `eventMap` that `ScheduleEvent` builds for a request. -/
def requestEventMap (parse : String → Option Time) (db : DB) (req : ScheduleRequest) : EventMap :=
  loadEventMap db req.ParticipantIds (windowStart parse req) (windowEnd parse req)

/-- The slice `candidateSlots` that `ScheduleEvent` builds for a request: the
candidates that survive the conflict filter. -/
def survivors (parse : String → Option Time) (db : DB) (req : ScheduleRequest) : List Slot :=
  candidateSlots (requestEventMap parse db req) (windowStart parse req) (windowEnd parse req)
    (slotDurationOf req)

/-- The contract of `sort.Slice` for the comparison by score: the result is a
rearrangement of the argument in which no element is followed by one of
strictly smaller score.  The order of elements of equal score is not fixed
(`sort.Slice` is not guaranteed to be stable). -/
def SortsByScore (sortSlice : List scoredSlot → List scoredSlot) : Prop :=
  ∀ xs, (sortSlice xs).Perm xs ∧ (sortSlice xs).Pairwise (fun a b => ¬ b.score < a.score)

/-- A sort that meets the contract of `sort.Slice` and is not stable: it brings
the element in the middle (index `len/4*2`) to the front, as the first
partition step of a quicksort does with its pivot, and then sorts by
insertion.  It is not the algorithm of Go's `sort` package, whose results it
need not give on other slices; it is one admissible behaviour of `sort.Slice`. -/
def pivotFirstSort (xs : List scoredSlot) : List scoredSlot :=
  match xs.get? (xs.length / 4 * 2) with
  | none => xs.insertionSort (fun a b => a.score ≤ b.score)
  | some x => (x :: xs.erase x).insertionSort (fun a b => a.score ≤ b.score)

/-- The insertion sort that `sort.Slice` runs on short slices: an element moves
left while it is strictly smaller than its left neighbour, so it is stable. -/
def insertionSort (xs : List scoredSlot) : List scoredSlot :=
  xs.insertionSort (fun a b => a.score ≤ b.score)

/-! ## `GetCalendarEvents` -/

/-- The method `t.IsZero()`: the instant is January 1, year 1, 00:00:00 UTC. -/
def Time.IsZero (t : Time) : Bool := decide (t.ns = Time.zero.ns)

/-- The error of a store call that fails.  The text of the
driver's error is not modelled: this string stands for it. -/
def storeError : String := "store error"

/-- The function `GetCalendarEvents`.  `parse` is `time.Parse(time.RFC3339, ·)`
(`none` when it returns an error, and then the parsed time is the zero time),
`db` is the store.  The result is the returned pair, `Except.error` for a
non-nil error. -/
def GetCalendarEvents (parse : String → Option Time) (db : DB) (userId start end_ : String) :
    Except String (List Event) :=
  let startTime := (parse start).getD Time.zero
  if (parse start).isNone ∧ start ≠ "" then
    Except.error "invalid start time format"
  else
    let endTime := (parse end_).getD Time.zero
    if (parse end_).isNone ∧ end_ ≠ "" then
      Except.error "invalid end time format"
    else if !startTime.IsZero && !endTime.IsZero && startTime.After endTime then
      Except.error "invalid time range: start time cannot be after end time"
    else if db.up then
      if start = "" ∨ end_ = "" then Except.ok (db.FindByUser userId)
      else Except.ok (db.FindOverlapping userId endTime startTime)
    else Except.error storeError

/-- The busy interval `s` is recorded for `userId` in the map. -/
def EventMap.Holds (m : EventMap) (userId : String) (s : Slot) : Prop :=
  ∃ entry ∈ m, entry.1 = userId ∧ s ∈ entry.2

/-! ## Notions used by the claims on conflicts, determinism and double booking -/

/-- The conflict test of line 46 of `ScheduleEvent`, for a candidate `a`
(`[t, end)`) and a busy interval `b` (`ev`): `b.Start.Before(a.End) &&
b.End.After(a.Start)`. -/
def conflicts (a b : Slot) : Bool := b.Start.Before a.End && b.End.After a.Start

/-- The number of executions of the body of the loop of lines 39-60 started at
`t`, when at most `fuel` iterations are allowed. -/
def loopIterations (endTime : Time) (slotDuration : Duration) : Nat → Time → Nat
  | 0, _ => 0
  | fuel + 1, t =>
    if (t.Add slotDuration).Before endTime || (t.Add slotDuration).Equal endTime then
      loopIterations endTime slotDuration fuel (t.Add (30 * Minute)) + 1
    else 0

/-- The map `m'` holds the entries of `m` in another order, each with its busy
intervals in another order: another iteration order of the Go map, and another
order of the rows that the store returns. -/
def EventMap.Rearranged (m m' : EventMap) : Prop :=
  ∃ mid : EventMap, m.Perm mid ∧ List.Forall₂ (fun a b => a.1 = b.1 ∧ a.2.Perm b.2) mid m'

/-- Lines 35-111 of `ScheduleEvent`: the function from the enumeration loop on,
for the map `eventMap` as the loops over it visit it. -/
def ScheduleEventFrom (sortSlice : List scoredSlot → List scoredSlot) (now : String) (db : DB)
    (req : ScheduleRequest) (startTime endTime : Time) (slotDuration : Duration)
    (eventMap : EventMap) : Except String ScheduledMeetingResponse × DB :=
  let candidateSlots := candidateSlots eventMap startTime endTime slotDuration
  if candidateSlots.length = 0 then
    (Except.error "no available time slot found for all participants", db)
  else
    let slots := sortSlice (scoreSlots eventMap candidateSlots)
    match slots with
    | [] => (Except.error "runtime error: index out of range [0] with length 0", db)
    | first :: _ =>
      let chosen := first.Slot
      let meetingCode := "meeting-" ++ now
      let meetingTitle := if req.Title = "" then "New Meeting" else req.Title
      let db := createEvents db req.ParticipantIds meetingCode meetingTitle chosen
      (Except.ok ⟨meetingCode, meetingTitle, req.ParticipantIds, chosen.Start, chosen.End⟩, db)

/-- No two stored events of one participant overlap (`a.Start < b.End` and
`a.End > b.Start`). -/
def NoDoubleBooking (events : List Event) : Prop :=
  events.Pairwise (fun a b => a.UserID = b.UserID →
    ¬ (a.StartTime.ns < b.EndTime.ns ∧ a.EndTime.ns > b.StartTime.ns))

/-! ## Concrete inputs -/

/-- The instant of 2025-08-09 at the given hour and minute UTC, located at UTC:
the value of the RFC3339 string `2025-08-09Thh:mm:00Z`. -/
def aug9 (h m : Int) : Time := ⟨(1754697600 + h * 3600 + m * 60) * 1000000000, 0⟩

/-- A stand-in for `time.Parse(time.RFC3339, ·)` on the listed strings: every
other string is rejected. -/
def parseTable (table : List (String × Time)) (s : String) : Option Time :=
  table.lookup s

/-- The strings `2025-08-09Thh:mm:00Z` used as window bounds below. -/
def parseAug9 : String → Option Time :=
  parseTable [("2025-08-09T00:00:00Z", aug9 0 0), ("2025-08-09T07:00:00Z", aug9 7 0),
    ("2025-08-09T08:00:00Z", aug9 8 0), ("2025-08-09T09:00:00Z", aug9 9 0),
    ("2025-08-09T10:00:00Z", aug9 10 0), ("2025-08-09T10:30:00Z", aug9 10 30),
    ("2025-08-09T11:00:00Z", aug9 11 0), ("2025-08-09T17:00:00Z", aug9 17 0)]

/-- The rows of the users table of the stores below: `u1`, `u2` and `u3`. -/
def usersTable : List User :=
  [⟨1, "u1", "Alice Johnson"⟩, ⟨2, "u2", "Bob Smith"⟩, ⟨3, "u3", "Charlie Brown"⟩]

/-- A store with one event: `u1` is busy 10:00-10:30. -/
def storeOneEvent : DB :=
  ⟨[⟨1, "event1", "u1", "Team Standup", aug9 10 0, aug9 10 30⟩], 2, true, usersTable, true⟩

/-- A request for 60 minutes between 08:00 and 11:00 for `u1`. -/
def requestMorning : ScheduleRequest :=
  ⟨"", ["u1"], 60, ⟨"2025-08-09T08:00:00Z", "2025-08-09T11:00:00Z"⟩⟩

/-- A store with one event: `u1` is busy 00:00-00:30. -/
def storeMidnight : DB :=
  ⟨[⟨1, "event1", "u1", "Night Shift Handover", aug9 0 0, aug9 0 30⟩], 2, true, usersTable, true⟩

/-- A request for 30 minutes between 00:00 and 07:00 for `u1`. -/
def requestNight : ScheduleRequest :=
  ⟨"", ["u1"], 30, ⟨"2025-08-09T00:00:00Z", "2025-08-09T07:00:00Z"⟩⟩

/-- A request for 30 minutes between 10:00 and 10:30 for `u1`. -/
def requestBusy : ScheduleRequest :=
  ⟨"", ["u1"], 30, ⟨"2025-08-09T10:00:00Z", "2025-08-09T10:30:00Z"⟩⟩

/-- A request between 09:00 and 10:00 for `u2` whose number of minutes,
`2^53 + 30`, multiplied by `time.Minute` exceeds 64 bits. -/
def requestHuge : ScheduleRequest :=
  ⟨"", ["u2"], 9007199254741022, ⟨"2025-08-09T09:00:00Z", "2025-08-09T10:00:00Z"⟩⟩

/-- A store where `u1` and `u2` are each busy 13:00-14:00. -/
def storeTwoUsers : DB :=
  ⟨[⟨1, "event1", "u1", "Project Review", aug9 13 0, aug9 14 0⟩,
    ⟨2, "event2", "u2", "Client Call", aug9 13 0, aug9 14 0⟩], 3, true, usersTable, true⟩

/-- A request for 60 minutes between 09:00 and 17:00 for `u1` and `u2`. -/
def requestDay : ScheduleRequest :=
  ⟨"", ["u1", "u2"], 60, ⟨"2025-08-09T09:00:00Z", "2025-08-09T17:00:00Z"⟩⟩

/-- A request for 60 minutes between 09:00 and 10:00 for `u3`, who has no
stored event. -/
def requestFree : ScheduleRequest :=
  ⟨"", ["u3"], 60, ⟨"2025-08-09T09:00:00Z", "2025-08-09T10:00:00Z"⟩⟩

/-- The interval 1700-01-01T00:00:00Z to 01:00:00Z. -/
def slotYear1700 : Slot :=
  ⟨⟨-8520336000000000000, 0⟩, ⟨-8520332400000000000, 0⟩⟩

/-- The strings of `parseAug9`, and the RFC3339 string of the zero time. -/
def parseWithZero : String → Option Time :=
  parseTable [("0001-01-01T00:00:00Z", Time.zero), ("2025-08-09T09:00:00Z", aug9 9 0),
    ("2025-08-09T10:00:00Z", aug9 10 0)]

/-- A store where `u1` is busy 08:30-09:00. -/
def storeEarly : DB :=
  ⟨[⟨1, "event1", "u1", "Breakfast Briefing", aug9 8 30, aug9 9 0⟩], 2, true, usersTable, true⟩

/-- A store where `u1` is busy 09:00-10:00. -/
def storeFullHour : DB :=
  ⟨[⟨1, "event1", "u1", "Design Meeting", aug9 9 0, aug9 10 0⟩], 2, true, usersTable, true⟩

/-- A store that already holds, for `u1` at 13:00-14:00, an event with the code
that a call at clock reading 20250809120000 gives the event of `u1`. -/
def storeSameSecond : DB :=
  ⟨[⟨1, "meeting-20250809120000-u1", "u1", "New Meeting", aug9 13 0, aug9 14 0⟩], 2, true, usersTable, true⟩

/-- The one-event store, down: it answers no query and accepts no insert. -/
def storeDown : DB :=
  ⟨[⟨1, "event1", "u1", "Team Standup", aug9 10 0, aug9 10 30⟩], 2, false, usersTable, false⟩

/-- A request for 60 minutes between 09:00 and 10:00 for `u1`. -/
def requestNine : ScheduleRequest :=
  ⟨"", ["u1"], 60, ⟨"2025-08-09T09:00:00Z", "2025-08-09T10:00:00Z"⟩⟩

/-- A request for 60 minutes between 09:00 and 10:00 for nobody. -/
def requestNobody : ScheduleRequest :=
  ⟨"", [], 60, ⟨"2025-08-09T09:00:00Z", "2025-08-09T10:00:00Z"⟩⟩

/-- A request for 0 minutes between 09:00 and 10:00 for `u2`. -/
def requestZero : ScheduleRequest :=
  ⟨"", ["u2"], 0, ⟨"2025-08-09T09:00:00Z", "2025-08-09T10:00:00Z"⟩⟩

/-- A request for -30 minutes between 09:00 and 10:00 for `u2`. -/
def requestNegative : ScheduleRequest :=
  ⟨"", ["u2"], -30, ⟨"2025-08-09T09:00:00Z", "2025-08-09T10:00:00Z"⟩⟩

/-- A request between 09:00 and 10:00 for `u1` whose number of minutes, `2^53`,
multiplied by `time.Minute` is 0 in 64 bits. -/
def requestWrapZero : ScheduleRequest :=
  ⟨"", ["u1"], 9007199254740992, ⟨"2025-08-09T09:00:00Z", "2025-08-09T10:00:00Z"⟩⟩

/-- A request for 60 minutes between 09:00 and 10:00 for `u9`, who has no row
in the users table. -/
def requestStranger : ScheduleRequest :=
  ⟨"", ["u9"], 60, ⟨"2025-08-09T09:00:00Z", "2025-08-09T10:00:00Z"⟩⟩

/-- A request for 60 minutes between 09:00 and 10:00 for `u1` and `u2`. -/
def requestPair : ScheduleRequest :=
  ⟨"", ["u1", "u2"], 60, ⟨"2025-08-09T09:00:00Z", "2025-08-09T10:00:00Z"⟩⟩

/-! ## The enumeration loop -/

theorem stepped_ns (t : Time) (k : Nat) : (t.stepped k).ns = t.ns + k * (30 * Minute) := by
  induction k with
  | zero => simp [Time.stepped]
  | succ n ih =>
    simp only [Time.stepped, Time.Add, ih]
    push_cast
    ring

theorem stepped_offset (t : Time) (k : Nat) : (t.stepped k).offset = t.offset := by
  induction k with
  | zero => simp [Time.stepped]
  | succ n ih => simp only [Time.stepped, Time.Add, ih]

theorem stepped_succ (t : Time) (k : Nat) :
    (t.Add (30 * Minute)).stepped k = t.stepped (k + 1) := by
  induction k with
  | zero => simp [Time.stepped]
  | succ n ih =>
    show ((t.Add (30 * Minute)).stepped n).Add (30 * Minute) = (t.stepped (n + 1)).Add (30 * Minute)
    rw [ih]

theorem slotValid_iff (eventMap : EventMap) (t end_ : Time) :
    slotValid eventMap t end_ = true ↔
      ∀ entry ∈ eventMap, ∀ ev ∈ entry.2, ¬ (ev.Start.ns < end_.ns ∧ ev.End.ns > t.ns) := by
  simp [slotValid, Time.Before, Time.After, List.all_eq_true, List.any_eq_true]

theorem mem_candidateLoop (eventMap : EventMap) (endTime : Time) (d : Duration) (slot : Slot) :
    ∀ (fuel : Nat) (t : Time),
      slot ∈ candidateLoop eventMap endTime d fuel t ↔
        ∃ k : Nat, k < fuel ∧ (t.stepped k).ns + d ≤ endTime.ns ∧
          slotValid eventMap (t.stepped k) ((t.stepped k).Add d) = true ∧
          slot = ⟨t.stepped k, (t.stepped k).Add d⟩ := by
  intro fuel
  induction fuel with
  | zero => intro t; simp [candidateLoop]
  | succ n ih =>
    intro t
    have hcond : ((t.Add d).Before endTime || (t.Add d).Equal endTime) = true ↔
        t.ns + d ≤ endTime.ns := by
      simp [Time.Before, Time.Equal, Time.Add]
      omega
    have hmono : ∀ k : Nat, (t.stepped k).ns + d ≤ endTime.ns → t.ns + d ≤ endTime.ns := by
      intro k hk
      rw [stepped_ns] at hk
      simp only [Minute] at hk
      have : (0 : Int) ≤ (k : Int) * (30 * 60000000000) := by positivity
      omega
    constructor
    · intro h
      rw [candidateLoop] at h
      split at h
      · rename_i hc
        have hrest : slot ∈ candidateLoop eventMap endTime d n (t.Add (30 * Minute)) →
            ∃ k : Nat, k < n + 1 ∧ (t.stepped k).ns + d ≤ endTime.ns ∧
              slotValid eventMap (t.stepped k) ((t.stepped k).Add d) = true ∧
              slot = ⟨t.stepped k, (t.stepped k).Add d⟩ := by
          intro hm
          obtain ⟨k, hk, h1, h2, h3⟩ := (ih _).1 hm
          refine ⟨k + 1, by omega, ?_, ?_, ?_⟩
          · rw [← stepped_succ]; exact h1
          · rw [← stepped_succ]; exact h2
          · rw [← stepped_succ]; exact h3
        simp only at h
        split at h
        · rename_i hv
          rcases List.mem_cons.1 h with h | h
          · exact ⟨0, by omega, hcond.1 hc, hv, h⟩
          · exact hrest h
        · exact hrest h
      · simp at h
    · rintro ⟨k, hk, h1, h2, h3⟩
      rw [candidateLoop]
      have hc := hcond.2 (hmono k h1)
      rw [if_pos hc]
      simp only
      cases k with
      | zero =>
        simp only [Time.stepped] at h2 h3
        rw [if_pos h2, h3]
        exact List.mem_cons_self _ _
      | succ j =>
        have hm : slot ∈ candidateLoop eventMap endTime d n (t.Add (30 * Minute)) := by
          refine (ih _).2 ⟨j, by omega, ?_, ?_, ?_⟩
          · rw [stepped_succ]; exact h1
          · rw [stepped_succ]; exact h2
          · rw [stepped_succ]; exact h3
        split
        · exact List.mem_cons_of_mem _ hm
        · exact hm

theorem lt_loopFuel_iff (startTime endTime : Time) (d : Duration) (k : Nat) :
    k < loopFuel startTime endTime d ↔ (startTime.stepped k).ns + d ≤ endTime.ns := by
  rw [stepped_ns]
  simp only [loopFuel, Minute]
  omega

theorem mem_candidateSlots (eventMap : EventMap) (startTime endTime : Time) (d : Duration)
    (slot : Slot) :
    slot ∈ candidateSlots eventMap startTime endTime d ↔
      ∃ k : Nat, (startTime.stepped k).ns + d ≤ endTime.ns ∧
        slotValid eventMap (startTime.stepped k) ((startTime.stepped k).Add d) = true ∧
        slot = ⟨startTime.stepped k, (startTime.stepped k).Add d⟩ := by
  rw [candidateSlots, mem_candidateLoop]
  constructor
  · rintro ⟨k, _, h⟩
    exact ⟨k, h⟩
  · rintro ⟨k, h⟩
    exact ⟨k, (lt_loopFuel_iff _ _ _ _).2 h.1, h⟩

theorem stepped_injective (t : Time) (j k : Nat) (h : t.stepped j = t.stepped k) : j = k := by
  have h1 := congrArg Time.ns h
  rw [stepped_ns, stepped_ns] at h1
  simp only [Minute] at h1
  omega

/-! ## The outcomes of `ScheduleEvent` -/

theorem ScheduleEvent_no_survivor (parse : String → Option Time)
    (sortSlice : List scoredSlot → List scoredSlot) (now : String) (db : DB)
    (req : ScheduleRequest) (h : survivors parse db req = []) :
    ScheduleEvent parse sortSlice now db req =
      (Except.error "no available time slot found for all participants", db) := by
  simp only [survivors, requestEventMap, windowStart, windowEnd, slotDurationOf] at h
  simp only [ScheduleEvent, h, List.length_nil, if_true]

theorem ScheduleEvent_sorted_nil (parse : String → Option Time)
    (sortSlice : List scoredSlot → List scoredSlot) (now : String) (db : DB)
    (req : ScheduleRequest) (h : survivors parse db req ≠ [])
    (hs : sortSlice (scoreSlots (requestEventMap parse db req) (survivors parse db req)) = []) :
    ScheduleEvent parse sortSlice now db req =
      (Except.error "runtime error: index out of range [0] with length 0", db) := by
  simp only [survivors, requestEventMap, windowStart, windowEnd, slotDurationOf] at h hs
  have hl : ¬ (candidateSlots
      (loadEventMap db req.ParticipantIds ((parse req.TimeRange.Start).getD Time.zero)
        ((parse req.TimeRange.End).getD Time.zero))
      ((parse req.TimeRange.Start).getD Time.zero) ((parse req.TimeRange.End).getD Time.zero)
      (wrap64 (req.DurationMinutes * Minute))).length = 0 := by
    intro h0
    exact h (List.length_eq_zero.1 h0)
  simp only [ScheduleEvent, hl, if_false, hs]

theorem ScheduleEvent_sorted_cons (parse : String → Option Time)
    (sortSlice : List scoredSlot → List scoredSlot) (now : String) (db : DB)
    (req : ScheduleRequest) (first : scoredSlot) (rest : List scoredSlot)
    (h : survivors parse db req ≠ [])
    (hs : sortSlice (scoreSlots (requestEventMap parse db req) (survivors parse db req)) =
      first :: rest) :
    ScheduleEvent parse sortSlice now db req =
      (Except.ok ⟨"meeting-" ++ now, if req.Title = "" then "New Meeting" else req.Title,
          req.ParticipantIds, first.Slot.Start, first.Slot.End⟩,
        createEvents db req.ParticipantIds ("meeting-" ++ now)
          (if req.Title = "" then "New Meeting" else req.Title) first.Slot) := by
  simp only [survivors, requestEventMap, windowStart, windowEnd, slotDurationOf] at h hs
  have hl : ¬ (candidateSlots
      (loadEventMap db req.ParticipantIds ((parse req.TimeRange.Start).getD Time.zero)
        ((parse req.TimeRange.End).getD Time.zero))
      ((parse req.TimeRange.Start).getD Time.zero) ((parse req.TimeRange.End).getD Time.zero)
      (wrap64 (req.DurationMinutes * Minute))).length = 0 := by
    intro h0
    exact h (List.length_eq_zero.1 h0)
  simp only [ScheduleEvent, hl, if_false, hs]

/-- What a successful call returns: the first element of the sorted slice. -/
theorem ScheduleEvent_ok (parse : String → Option Time)
    (sortSlice : List scoredSlot → List scoredSlot) (now : String) (db : DB)
    (req : ScheduleRequest) (resp : ScheduledMeetingResponse)
    (h : (ScheduleEvent parse sortSlice now db req).1 = Except.ok resp) :
    survivors parse db req ≠ [] ∧
    ∃ first rest,
      sortSlice (scoreSlots (requestEventMap parse db req) (survivors parse db req)) =
        first :: rest ∧
      resp = ⟨"meeting-" ++ now, if req.Title = "" then "New Meeting" else req.Title,
        req.ParticipantIds, first.Slot.Start, first.Slot.End⟩ := by
  by_cases hsv : survivors parse db req = []
  · rw [ScheduleEvent_no_survivor parse sortSlice now db req hsv] at h
    exact absurd h (by simp)
  · refine ⟨hsv, ?_⟩
    cases hs : sortSlice (scoreSlots (requestEventMap parse db req) (survivors parse db req)) with
    | nil =>
      rw [ScheduleEvent_sorted_nil parse sortSlice now db req hsv hs] at h
      exact absurd h (by simp)
    | cons first rest =>
      rw [ScheduleEvent_sorted_cons parse sortSlice now db req first rest hsv hs] at h
      refine ⟨first, rest, rfl, ?_⟩
      simp only [Except.ok.injEq] at h
      exact h.symm

theorem insertionSort_sortsByScore : SortsByScore insertionSort := by
  intro xs
  refine ⟨List.perm_insertionSort _ xs, ?_⟩
  haveI : IsTotal scoredSlot (fun a b => a.score ≤ b.score) := ⟨fun a b => le_total a.score b.score⟩
  haveI : IsTrans scoredSlot (fun a b => a.score ≤ b.score) := ⟨fun _ _ _ h1 h2 => le_trans h1 h2⟩
  have h := List.sorted_insertionSort (fun a b : scoredSlot => a.score ≤ b.score) xs
  exact List.Pairwise.imp (fun {a b} hab => not_lt.2 hab) h

theorem mem_scoreSlots (eventMap : EventMap) (cands : List Slot) (x : scoredSlot) :
    x ∈ scoreSlots eventMap cands ↔ ∃ slot ∈ cands, x = ⟨slot, totalScore eventMap slot⟩ := by
  simp only [scoreSlots, List.mem_map]
  constructor
  · rintro ⟨slot, h1, h2⟩; exact ⟨slot, h1, h2.symm⟩
  · rintro ⟨slot, h1, h2⟩; exact ⟨slot, h1, h2.symm⟩

theorem pivotFirstSort_sortsByScore : SortsByScore pivotFirstSort := by
  intro xs
  haveI : IsTotal scoredSlot (fun a b => a.score ≤ b.score) := ⟨fun a b => le_total a.score b.score⟩
  haveI : IsTrans scoredSlot (fun a b => a.score ≤ b.score) := ⟨fun _ _ _ h1 h2 => le_trans h1 h2⟩
  unfold pivotFirstSort
  cases hx : xs.get? (xs.length / 4 * 2) with
  | none =>
    refine ⟨List.perm_insertionSort _ xs, ?_⟩
    exact List.Pairwise.imp (fun {a b} hab => not_lt.2 hab)
      (List.sorted_insertionSort (fun a b : scoredSlot => a.score ≤ b.score) xs)
  | some x =>
    have hmem : x ∈ xs := List.get?_mem hx
    refine ⟨(List.perm_insertionSort _ _).trans (List.perm_cons_erase hmem).symm, ?_⟩
    exact List.Pairwise.imp (fun {a b} hab => not_lt.2 hab)
      (List.sorted_insertionSort (fun a b : scoredSlot => a.score ≤ b.score) (x :: xs.erase x))

theorem candidateLoop_length_free (eventMap : EventMap) (endTime : Time) (d : Duration)
    (hfree : ∀ entry ∈ eventMap, entry.2 = []) :
    ∀ (fuel : Nat) (t : Time), (∀ k : Nat, k < fuel → (t.stepped k).ns + d ≤ endTime.ns) →
      (candidateLoop eventMap endTime d fuel t).length = fuel := by
  have hvalid : ∀ t e : Time, slotValid eventMap t e = true := by
    intro t e
    rw [slotValid_iff]
    intro entry hentry ev hev
    rw [hfree entry hentry] at hev
    simp at hev
  intro fuel
  induction fuel with
  | zero => intro t _; simp [candidateLoop]
  | succ n ih =>
    intro t h
    have h0 := h 0 (by omega)
    simp only [Time.stepped] at h0
    have hc : ((t.Add d).Before endTime || (t.Add d).Equal endTime) = true := by
      simp [Time.Before, Time.Equal, Time.Add]
      omega
    rw [candidateLoop, if_pos hc]
    simp only [hvalid, if_true, List.length_cons]
    rw [ih]
    intro k hk
    rw [stepped_succ]
    exact h (k + 1) (by omega)

theorem candidateSlots_length_free (eventMap : EventMap) (startTime endTime : Time) (d : Duration)
    (hfree : ∀ entry ∈ eventMap, entry.2 = []) :
    (candidateSlots eventMap startTime endTime d).length = loopFuel startTime endTime d := by
  rw [candidateSlots]
  exact candidateLoop_length_free eventMap endTime d hfree _ _
    (fun k hk => (lt_loopFuel_iff startTime endTime d k).1 hk)

/-! ## The score -/

theorem foldl_add_eq_sum {α : Type} (f : α → Int) (xs : List α) :
    ∀ init : Int, xs.foldl (fun s x => s + f x) init = init + (xs.map f).sum := by
  induction xs with
  | nil => intro init; simp
  | cons x xs ih =>
    intro init
    simp only [List.foldl_cons, List.map_cons, List.sum_cons, ih]
    ring

theorem ScoreSlot_eq_sum (slot : Slot) (userEvents : List Slot) :
    ScoreSlot slot userEvents =
      hourBucket slot.Start.Hour + (userEvents.map (bufferPenalty slot)).sum +
        (userEvents.map (gapPenalty slot)).sum := by
  have h1 : ∀ init : Int, userEvents.foldl (fun score event =>
      if absDuration (slot.Start.Sub event.End) < 15 * Minute ∨
          absDuration (event.Start.Sub slot.End) < 15 * Minute then score + 2 else score) init =
      init + (userEvents.map (bufferPenalty slot)).sum := by
    intro init
    rw [← foldl_add_eq_sum]
    congr 1
    funext score event
    unfold bufferPenalty
    split <;> simp
  have h2 : ∀ init : Int, userEvents.foldl (fun score event =>
      if event.Start.Sub slot.End > 0 ∧ event.Start.Sub slot.End < 30 * Minute then
        (if slot.Start.Sub event.End > 0 ∧ slot.Start.Sub event.End < 30 * Minute then score + 1
          else score) + 1
      else (if slot.Start.Sub event.End > 0 ∧ slot.Start.Sub event.End < 30 * Minute then score + 1
          else score)) init =
      init + (userEvents.map (gapPenalty slot)).sum := by
    intro init
    rw [← foldl_add_eq_sum]
    congr 1
    funext score event
    unfold gapPenalty
    split <;> split <;> simp
    ring
  have h0 : (if slot.Start.Hour ≥ 16 then (0 : Int) + 3
      else if slot.Start.Hour ≥ 12 then 0 + 2
      else if slot.Start.Hour ≥ 9 then 0 + 1 else 0 + 4) = hourBucket slot.Start.Hour := by
    unfold hourBucket
    split_ifs <;> omega
  unfold ScoreSlot
  simp only [h1, h2, h0]

theorem ScoreSlot_nil (slot : Slot) : ScoreSlot slot [] = hourBucket slot.Start.Hour := by
  rw [ScoreSlot_eq_sum]; simp

theorem ScoreSlot_single (slot b : Slot) :
    ScoreSlot slot [b] - ScoreSlot slot [] = bufferPenalty slot b + gapPenalty slot b := by
  rw [ScoreSlot_eq_sum, ScoreSlot_eq_sum]
  simp only [List.map_cons, List.map_nil, List.sum_cons, List.sum_nil]
  ring

theorem Hour_range (t : Time) : 0 ≤ t.Hour ∧ t.Hour < 24 := by
  unfold Time.Hour
  omega

theorem totalScore_eq_sum (eventMap : EventMap) (slot : Slot) :
    totalScore eventMap slot = (eventMap.map (fun entry => ScoreSlot slot entry.2)).sum := by
  unfold totalScore
  rw [foldl_add_eq_sum (fun entry : String × List Slot => ScoreSlot slot entry.2)]
  simp

theorem ScheduleEvent_ok_mem (parse : String → Option Time)
    (sortSlice : List scoredSlot → List scoredSlot) (now : String) (db : DB)
    (req : ScheduleRequest) (resp : ScheduledMeetingResponse)
    (hsort : SortsByScore sortSlice)
    (hok : (ScheduleEvent parse sortSlice now db req).1 = Except.ok resp) :
    Slot.mk resp.StartTime resp.EndTime ∈ survivors parse db req := by
  obtain ⟨_, first, rest, hs, hresp⟩ := ScheduleEvent_ok parse sortSlice now db req resp hok
  have hperm := (hsort (scoreSlots (requestEventMap parse db req) (survivors parse db req))).1
  rw [hs] at hperm
  obtain ⟨slot, hslot, hfs⟩ := (mem_scoreSlots _ _ _).1 (hperm.subset (List.mem_cons_self _ _))
  have hchosen : Slot.mk resp.StartTime resp.EndTime = slot := by
    rw [hresp, hfs]
  rw [hchosen]
  exact hslot

theorem wrap64_minutes (n : Int) (hpos : 0 < n) (hfit : n ≤ 153722867) :
    wrap64 (n * Minute) = n * Minute := by
  simp only [wrap64, Minute]
  omega

/-! ## Saturation and the adjacency penalties -/

theorem Sub_cases (t u : Time) :
    (t.Sub u = t.ns - u.ns ∧ -9223372036854775808 ≤ t.ns - u.ns ∧ t.ns - u.ns ≤ 9223372036854775807) ∨
    (t.Sub u = -9223372036854775808 ∧ t.ns - u.ns < -9223372036854775808) ∨
    (t.Sub u = 9223372036854775807 ∧ t.ns - u.ns > 9223372036854775807) := by
  simp only [Time.Sub, minDuration, maxDuration]
  unfold Duration
  split_ifs <;> omega

theorem absDuration_lt_iff (d c : Duration) (hlo : -9223372036854775808 ≤ d)
    (hhi : d ≤ 9223372036854775807) (hc : 0 < c) :
    absDuration d < c ↔ (d = -9223372036854775808 ∨ (-c < d ∧ d < c)) := by
  simp only [absDuration, wrap64]
  unfold Duration at *
  split_ifs <;> omega

theorem Sub_range (t u : Time) :
    -9223372036854775808 ≤ t.Sub u ∧ t.Sub u ≤ 9223372036854775807 := by
  have h := Sub_cases t u
  unfold Duration at *
  rcases h with h | h | h <;> omega

theorem bufferPenalty_eq (slot b : Slot) :
    bufferPenalty slot b =
      if (slot.Start.Sub b.End = -9223372036854775808 ∨
            (-900000000000 < slot.Start.Sub b.End ∧ slot.Start.Sub b.End < 900000000000)) ∨
          (b.Start.Sub slot.End = -9223372036854775808 ∨
            (-900000000000 < b.Start.Sub slot.End ∧ b.Start.Sub slot.End < 900000000000))
      then 2 else 0 := by
  unfold bufferPenalty
  have h1 := absDuration_lt_iff (slot.Start.Sub b.End) (15 * Minute) (Sub_range _ _).1
    (Sub_range _ _).2 (by simp [Minute])
  have h2 := absDuration_lt_iff (b.Start.Sub slot.End) (15 * Minute) (Sub_range _ _).1
    (Sub_range _ _).2 (by simp [Minute])
  simp only [Minute] at h1 h2
  simp only [Minute]
  norm_num at h1 h2 ⊢
  exact if_congr (or_congr h1 h2) rfl rfl

theorem adjacency_before (slot b : Slot) (hb : b.Start.ns ≤ b.End.ns)
    (hslot : slot.Start.ns ≤ slot.End.ns)
    (hbefore : b.End.ns ≤ slot.Start.ns)
    (hspan : slot.End.ns - b.Start.ns < 9223372036854775808) :
    bufferPenalty slot b + gapPenalty slot b = adjacencyByGap (slot.Start.ns - b.End.ns) := by
  rw [bufferPenalty_eq]
  have hx := Sub_cases slot.Start b.End
  have hy := Sub_cases b.Start slot.End
  simp only [gapPenalty, adjacencyByGap, Minute]
  generalize slot.Start.Sub b.End = x at hx ⊢
  generalize b.Start.Sub slot.End = y at hy ⊢
  unfold Duration at *
  rcases hx with hx | hx | hx <;> rcases hy with hy | hy | hy <;> split_ifs <;> omega

theorem adjacency_after (slot b : Slot) (hb : b.Start.ns ≤ b.End.ns)
    (hslot : slot.Start.ns ≤ slot.End.ns)
    (hafter : slot.End.ns ≤ b.Start.ns)
    (hspan : b.End.ns - slot.Start.ns < 9223372036854775808) :
    bufferPenalty slot b + gapPenalty slot b = adjacencyByGap (b.Start.ns - slot.End.ns) := by
  rw [bufferPenalty_eq]
  have hx := Sub_cases slot.Start b.End
  have hy := Sub_cases b.Start slot.End
  simp only [gapPenalty, adjacencyByGap, Minute]
  generalize slot.Start.Sub b.End = x at hx ⊢
  generalize b.Start.Sub slot.End = y at hy ⊢
  unfold Duration at *
  rcases hx with hx | hx | hx <;> rcases hy with hy | hy | hy <;> split_ifs <;> omega

theorem gaps_not_both (slot b : Slot) (hb : b.Start.ns ≤ b.End.ns)
    (hslot : slot.Start.ns ≤ slot.End.ns) :
    ¬ ((slot.Start.Sub b.End > 0 ∧ slot.Start.Sub b.End < 30 * Minute) ∧
        (b.Start.Sub slot.End > 0 ∧ b.Start.Sub slot.End < 30 * Minute)) := by
  have hx := Sub_cases slot.Start b.End
  have hy := Sub_cases b.Start slot.End
  simp only [Minute]
  generalize slot.Start.Sub b.End = x at hx ⊢
  generalize b.Start.Sub slot.End = y at hy ⊢
  unfold Duration at *
  rcases hx with hx | hx | hx <;> rcases hy with hy | hy | hy <;> omega

theorem gapPenalty_le_one (slot b : Slot) (hb : b.Start.ns ≤ b.End.ns)
    (hslot : slot.Start.ns ≤ slot.End.ns) : gapPenalty slot b ≤ 1 := by
  have h := gaps_not_both slot b hb hslot
  unfold gapPenalty
  split_ifs with h1 h2 h2
  · exact absurd ⟨h1, h2⟩ h
  · omega
  · omega
  · omega

theorem bufferPenalty_le_two (slot b : Slot) : bufferPenalty slot b ≤ 2 := by
  unfold bufferPenalty
  split <;> omega

/-! ## The busy-set map -/

theorem append_keys (m : EventMap) (u : String) (s : Slot) :
    (m.append u s).map Prod.fst =
      if u ∈ m.map Prod.fst then m.map Prod.fst else m.map Prod.fst ++ [u] := by
  induction m with
  | nil => simp [EventMap.append]
  | cons entry rest ih =>
    obtain ⟨k, v⟩ := entry
    by_cases hk : k = u
    · simp [EventMap.append, hk]
    · have hne : ¬ u = k := fun h => hk h.symm
      simp only [EventMap.append, if_neg hk, List.map_cons, ih, List.mem_cons, hne, false_or]
      split <;> simp

theorem append_mem_keys (m : EventMap) (u : String) (s : Slot) (x : String) :
    x ∈ (m.append u s).map Prod.fst ↔ x ∈ m.map Prod.fst ∨ x = u := by
  rw [append_keys]
  split
  · rename_i h
    constructor
    · intro hx; exact Or.inl hx
    · rintro (hx | hx)
      · exact hx
      · rw [hx]; exact h
  · simp

theorem append_nodup_keys (m : EventMap) (u : String) (s : Slot)
    (h : (m.map Prod.fst).Nodup) : ((m.append u s).map Prod.fst).Nodup := by
  rw [append_keys]
  split
  · exact h
  · rename_i hu
    rw [List.nodup_append]
    refine ⟨h, List.nodup_singleton u, ?_⟩
    intro a ha hb
    rw [List.mem_singleton] at hb
    rw [hb] at ha
    exact hu ha

theorem foldl_append_keys (u : String) (events : List Event) :
    ∀ m : EventMap,
      ((m.map Prod.fst).Nodup →
        ((events.foldl (fun eventMap e =>
          eventMap.append u ⟨e.StartTime, e.EndTime⟩) m).map Prod.fst).Nodup) ∧
      ∀ x, x ∈ (events.foldl (fun eventMap e =>
          eventMap.append u ⟨e.StartTime, e.EndTime⟩) m).map Prod.fst ↔
        x ∈ m.map Prod.fst ∨ (x = u ∧ events ≠ []) := by
  induction events with
  | nil => intro m; simp
  | cons e rest ih =>
    intro m
    simp only [List.foldl_cons]
    obtain ⟨h1, h2⟩ := ih (m.append u ⟨e.StartTime, e.EndTime⟩)
    refine ⟨fun hm => h1 (append_nodup_keys m u _ hm), ?_⟩
    intro x
    rw [h2, append_mem_keys]
    constructor
    · rintro ((h | h) | ⟨h, _⟩)
      · exact Or.inl h
      · exact Or.inr ⟨h, by simp⟩
      · exact Or.inr ⟨h, by simp⟩
    · rintro (h | ⟨h, _⟩)
      · exact Or.inl (Or.inl h)
      · exact Or.inl (Or.inr h)

theorem foldl_load_keys (db : DB) (startTime endTime : Time) (participantIds : List String) :
    ∀ m : EventMap,
      ((m.map Prod.fst).Nodup →
        ((participantIds.foldl (fun eventMap userId =>
          (db.FindOverlapping userId endTime startTime).foldl (fun eventMap e =>
            eventMap.append userId ⟨e.StartTime, e.EndTime⟩) eventMap) m).map Prod.fst).Nodup) ∧
      ∀ x, x ∈ (participantIds.foldl (fun eventMap userId =>
          (db.FindOverlapping userId endTime startTime).foldl (fun eventMap e =>
            eventMap.append userId ⟨e.StartTime, e.EndTime⟩) eventMap) m).map Prod.fst ↔
        x ∈ m.map Prod.fst ∨
          (x ∈ participantIds ∧ db.FindOverlapping x endTime startTime ≠ []) := by
  induction participantIds with
  | nil => intro m; simp
  | cons u rest ih =>
    intro m
    simp only [List.foldl_cons]
    obtain ⟨g1, g2⟩ := foldl_append_keys u (db.FindOverlapping u endTime startTime) m
    obtain ⟨h1, h2⟩ := ih ((db.FindOverlapping u endTime startTime).foldl (fun eventMap e =>
      eventMap.append u ⟨e.StartTime, e.EndTime⟩) m)
    refine ⟨fun hm => h1 (g1 hm), ?_⟩
    intro x
    rw [h2, g2]
    constructor
    · rintro ((h | ⟨h, hne⟩) | ⟨h, hne⟩)
      · exact Or.inl h
      · exact Or.inr ⟨by rw [h]; exact List.mem_cons_self _ _, by rw [h]; exact hne⟩
      · exact Or.inr ⟨List.mem_cons_of_mem _ h, hne⟩
    · rintro (h | ⟨h, hne⟩)
      · exact Or.inl (Or.inl h)
      · rcases List.mem_cons.1 h with h | h
        · exact Or.inl (Or.inr ⟨h, by rw [← h]; exact hne⟩)
        · exact Or.inr ⟨h, hne⟩

/-- The keys of the map that `ScheduleEvent` builds: each participant of the
request with at least one stored event overlapping the window, once. -/
theorem loadEventMap_keys (db : DB) (participantIds : List String) (startTime endTime : Time) :
    ((loadEventMap db participantIds startTime endTime).map Prod.fst).Nodup ∧
    ∀ x, x ∈ (loadEventMap db participantIds startTime endTime).map Prod.fst ↔
      (x ∈ participantIds ∧ db.FindOverlapping x endTime startTime ≠ []) := by
  obtain ⟨h1, h2⟩ := foldl_load_keys db startTime endTime participantIds []
  refine ⟨h1 (by simp), ?_⟩
  intro x
  have := h2 x
  simpa [loadEventMap] using this

theorem candidateLoop_stop (eventMap : EventMap) (endTime : Time) (d : Duration) (fuel : Nat)
    (t : Time) (h : ¬ t.ns + d ≤ endTime.ns) :
    candidateLoop eventMap endTime d fuel t = [] := by
  cases fuel with
  | zero => rfl
  | succ n =>
    have hc : ¬ ((t.Add d).Before endTime || (t.Add d).Equal endTime) = true := by
      simp [Time.Before, Time.Equal, Time.Add]
      omega
    rw [candidateLoop, if_neg hc]

/-- The loop leaves by its condition before the fuel of `candidateSlots` runs
out: any larger number of iterations gives the same slice. -/
theorem candidateLoop_fuel_enough (eventMap : EventMap) (endTime : Time) (d : Duration) :
    ∀ (n extra : Nat) (t : Time), ¬ (t.stepped n).ns + d ≤ endTime.ns →
      candidateLoop eventMap endTime d (n + extra) t = candidateLoop eventMap endTime d n t := by
  intro n
  induction n with
  | zero =>
    intro extra t h
    simp only [Time.stepped] at h
    rw [candidateLoop_stop eventMap endTime d _ t h]
    rfl
  | succ m ih =>
    intro extra t h
    have hstep : ¬ ((t.Add (30 * Minute)).stepped m).ns + d ≤ endTime.ns := by
      rw [stepped_succ]; exact h
    have hfuel : m + 1 + extra = (m + extra) + 1 := by omega
    rw [hfuel, candidateLoop, candidateLoop, ih extra _ hstep]

theorem candidateSlots_fuel_enough (eventMap : EventMap) (startTime endTime : Time)
    (d : Duration) (extra : Nat) :
    candidateLoop eventMap endTime d (loopFuel startTime endTime d + extra) startTime =
      candidateSlots eventMap startTime endTime d := by
  rw [candidateSlots]
  apply candidateLoop_fuel_enough
  intro h
  have := (lt_loopFuel_iff startTime endTime d (loopFuel startTime endTime d)).2 h
  omega

/-! ## The busy intervals of the map -/

theorem holds_nil (k : String) (s : Slot) : ¬ EventMap.Holds [] k s := by
  rintro ⟨entry, hmem, _⟩
  exact absurd hmem (List.not_mem_nil _)

theorem holds_cons (a : String) (v : List Slot) (m : EventMap) (k : String) (s : Slot) :
    EventMap.Holds ((a, v) :: m) k s ↔ (a = k ∧ s ∈ v) ∨ EventMap.Holds m k s := by
  constructor
  · rintro ⟨entry, hmem, h1, h2⟩
    rcases List.mem_cons.1 hmem with h | h
    · subst h; exact Or.inl ⟨h1, h2⟩
    · exact Or.inr ⟨entry, h, h1, h2⟩
  · rintro (⟨h1, h2⟩ | ⟨entry, hmem, h1, h2⟩)
    · exact ⟨(a, v), List.mem_cons_self _ _, h1, h2⟩
    · exact ⟨entry, List.mem_cons_of_mem _ hmem, h1, h2⟩

theorem holds_append_iff (m : EventMap) (u : String) (x : Slot) (k : String) (s : Slot) :
    (m.append u x).Holds k s ↔ m.Holds k s ∨ (k = u ∧ s = x) := by
  induction m with
  | nil =>
    simp only [EventMap.append]
    rw [holds_cons]
    constructor
    · rintro (⟨h1, h2⟩ | h)
      · exact Or.inr ⟨h1.symm, by simpa using h2⟩
      · exact absurd h (holds_nil k s)
    · rintro (h | ⟨h1, h2⟩)
      · exact absurd h (holds_nil k s)
      · exact Or.inl ⟨h1.symm, by simp [h2]⟩
  | cons entry rest ih =>
    obtain ⟨a, v⟩ := entry
    by_cases ha : a = u
    · simp only [EventMap.append, if_pos ha]
      rw [holds_cons, holds_cons]
      simp only [List.mem_append, List.mem_singleton]
      constructor
      · rintro (⟨h1, h2 | h2⟩ | h)
        · exact Or.inl (Or.inl ⟨h1, h2⟩)
        · exact Or.inr ⟨by rw [← h1]; exact ha, h2⟩
        · exact Or.inl (Or.inr h)
      · rintro ((⟨h1, h2⟩ | h) | ⟨h1, h2⟩)
        · exact Or.inl ⟨h1, Or.inl h2⟩
        · exact Or.inr h
        · exact Or.inl ⟨by rw [h1]; exact ha, Or.inr h2⟩
    · simp only [EventMap.append, if_neg ha]
      rw [holds_cons, holds_cons, ih]
      constructor
      · rintro (h | h | h)
        · exact Or.inl (Or.inl h)
        · exact Or.inl (Or.inr h)
        · exact Or.inr h
      · rintro ((h | h) | h)
        · exact Or.inl h
        · exact Or.inr (Or.inl h)
        · exact Or.inr (Or.inr h)

theorem foldl_append_holds (u : String) (events : List Event) (k : String) (s : Slot) :
    ∀ m : EventMap,
      (events.foldl (fun eventMap e =>
          eventMap.append u ⟨e.StartTime, e.EndTime⟩) m).Holds k s ↔
        m.Holds k s ∨ (k = u ∧ ∃ e ∈ events, s = ⟨e.StartTime, e.EndTime⟩) := by
  induction events with
  | nil =>
    intro m
    simp
  | cons e rest ih =>
    intro m
    simp only [List.foldl_cons]
    rw [ih, holds_append_iff]
    constructor
    · rintro ((h | ⟨h1, h2⟩) | ⟨h1, e2, he2, h2⟩)
      · exact Or.inl h
      · exact Or.inr ⟨h1, e, List.mem_cons_self _ _, h2⟩
      · exact Or.inr ⟨h1, e2, List.mem_cons_of_mem _ he2, h2⟩
    · rintro (h | ⟨h1, e2, he2, h2⟩)
      · exact Or.inl (Or.inl h)
      · rcases List.mem_cons.1 he2 with h | h
        · subst h; exact Or.inl (Or.inr ⟨h1, h2⟩)
        · exact Or.inr ⟨h1, e2, h, h2⟩

theorem foldl_load_holds (db : DB) (startTime endTime : Time) (participantIds : List String)
    (k : String) (s : Slot) :
    ∀ m : EventMap,
      (participantIds.foldl (fun eventMap userId =>
          (db.FindOverlapping userId endTime startTime).foldl (fun eventMap e =>
            eventMap.append userId ⟨e.StartTime, e.EndTime⟩) eventMap) m).Holds k s ↔
        m.Holds k s ∨
          (k ∈ participantIds ∧
            ∃ e ∈ db.FindOverlapping k endTime startTime, s = ⟨e.StartTime, e.EndTime⟩) := by
  induction participantIds with
  | nil =>
    intro m
    simp
  | cons u rest ih =>
    intro m
    simp only [List.foldl_cons]
    rw [ih, foldl_append_holds]
    constructor
    · rintro ((h | ⟨h1, h2⟩) | ⟨h1, h2⟩)
      · exact Or.inl h
      · subst h1; exact Or.inr ⟨List.mem_cons_self _ _, h2⟩
      · exact Or.inr ⟨List.mem_cons_of_mem _ h1, h2⟩
    · rintro (h | ⟨h1, h2⟩)
      · exact Or.inl (Or.inl h)
      · rcases List.mem_cons.1 h1 with h | h
        · subst h; exact Or.inl (Or.inr ⟨rfl, h2⟩)
        · exact Or.inr ⟨h, h2⟩

/-- The busy intervals of the map that `ScheduleEvent` builds: those of the
stored events overlapping the window, for the participants of the request. -/
theorem loadEventMap_holds (db : DB) (participantIds : List String) (startTime endTime : Time)
    (k : String) (s : Slot) :
    (loadEventMap db participantIds startTime endTime).Holds k s ↔
      (k ∈ participantIds ∧
        ∃ e ∈ db.FindOverlapping k endTime startTime, s = ⟨e.StartTime, e.EndTime⟩) := by
  have h := foldl_load_holds db startTime endTime participantIds k s []
  rw [loadEventMap, h]
  constructor
  · rintro (h | h)
    · exact absurd h (holds_nil k s)
    · exact h
  · intro h
    exact Or.inr h

theorem mem_FindOverlapping (db : DB) (userId : String) (endTime startTime : Time) (e : Event) :
    e ∈ db.FindOverlapping userId endTime startTime ↔
      (db.up = true ∧ e ∈ db.events ∧ e.UserID = userId ∧ e.StartTime.ns < endTime.ns ∧
        e.EndTime.ns > startTime.ns) := by
  unfold DB.FindOverlapping
  split
  · rename_i hup
    simp [List.mem_filter, Time.Before, Time.After, hup, and_assoc]
  · rename_i hup
    simp [hup]

theorem mem_FindByUser (db : DB) (userId : String) (e : Event) :
    e ∈ db.FindByUser userId ↔ (db.up = true ∧ e ∈ db.events ∧ e.UserID = userId) := by
  unfold DB.FindByUser
  split
  · rename_i hup
    simp [List.mem_filter, hup]
  · rename_i hup
    simp [hup]

/-! ## Lower bounds on the score -/

theorem hourBucket_pos (h : Int) : 1 ≤ hourBucket h := by
  unfold hourBucket
  split_ifs <;> omega

theorem bufferPenalty_nonneg (slot b : Slot) : 0 ≤ bufferPenalty slot b := by
  unfold bufferPenalty
  split <;> omega

theorem gapPenalty_nonneg (slot b : Slot) : 0 ≤ gapPenalty slot b := by
  unfold gapPenalty
  split_ifs <;> omega

theorem sum_map_nonneg {α : Type} (f : α → Int) (hf : ∀ x, 0 ≤ f x) (xs : List α) :
    0 ≤ (xs.map f).sum := by
  induction xs with
  | nil => simp
  | cons x xs ih =>
    simp only [List.map_cons, List.sum_cons]
    have := hf x
    omega

theorem le_sum_map_of_mem {α : Type} (f : α → Int) (hf : ∀ x, 0 ≤ f x) (xs : List α) (a : α)
    (ha : a ∈ xs) : f a ≤ (xs.map f).sum := by
  induction xs with
  | nil => exact absurd ha (List.not_mem_nil _)
  | cons x xs ih =>
    simp only [List.map_cons, List.sum_cons]
    rcases List.mem_cons.1 ha with h | h
    · subst h
      have := sum_map_nonneg f hf xs
      omega
    · have := ih h
      have := hf x
      omega

theorem ScoreSlot_ge (slot : Slot) (userEvents : List Slot) (b : Slot) (hb : b ∈ userEvents) :
    hourBucket slot.Start.Hour + bufferPenalty slot b ≤ ScoreSlot slot userEvents := by
  rw [ScoreSlot_eq_sum]
  have h1 := le_sum_map_of_mem (bufferPenalty slot) (bufferPenalty_nonneg slot) userEvents b hb
  have h2 := sum_map_nonneg (gapPenalty slot) (gapPenalty_nonneg slot) userEvents
  omega

theorem ScoreSlot_nonneg (slot : Slot) (userEvents : List Slot) : 0 ≤ ScoreSlot slot userEvents := by
  rw [ScoreSlot_eq_sum]
  have h0 := hourBucket_pos slot.Start.Hour
  have h1 := sum_map_nonneg (bufferPenalty slot) (bufferPenalty_nonneg slot) userEvents
  have h2 := sum_map_nonneg (gapPenalty slot) (gapPenalty_nonneg slot) userEvents
  omega

theorem totalScore_ge (eventMap : EventMap) (slot : Slot) (entry : String × List Slot)
    (h : entry ∈ eventMap) : ScoreSlot slot entry.2 ≤ totalScore eventMap slot := by
  rw [totalScore_eq_sum]
  exact le_sum_map_of_mem (fun entry : String × List Slot => ScoreSlot slot entry.2)
    (fun entry => ScoreSlot_nonneg slot entry.2) eventMap entry h

theorem bufferPenalty_touching (slot b : Slot) (h : b.End.ns = slot.Start.ns) :
    bufferPenalty slot b = 2 := by
  have hsub : slot.Start.Sub b.End = 0 := by
    simp only [Time.Sub, minDuration, maxDuration, h]
    simp
  have habs : absDuration (slot.Start.Sub b.End) < 15 * Minute := by
    rw [hsub]
    simp [absDuration, Minute]
  unfold bufferPenalty
  rw [if_pos (Or.inl habs)]

theorem candidateSlots_eq_nil_of_conflict (eventMap : EventMap) (startTime endTime : Time)
    (d : Duration)
    (h : ∀ k : Nat, (startTime.stepped k).ns + d ≤ endTime.ns →
      slotValid eventMap (startTime.stepped k) ((startTime.stepped k).Add d) = false) :
    candidateSlots eventMap startTime endTime d = [] := by
  rw [List.eq_nil_iff_forall_not_mem]
  intro slot hslot
  obtain ⟨k, hk, hvalid, _⟩ := (mem_candidateSlots _ _ _ _ _).1 hslot
  rw [h k hk] at hvalid
  exact absurd hvalid (by simp)

/-! ## The inserts -/

theorem string_append_cancel (s t u : String) (h : s ++ t = s ++ u) : t = u := by
  have hd := String.ext_iff.1 h
  rw [String.data_append, String.data_append] at hd
  exact String.ext (List.append_cancel_left hd)

theorem Create_up (db : DB) (e : Event) : (db.Create e).up = db.up := by
  unfold DB.Create
  split <;> rfl

theorem Create_users (db : DB) (e : Event) : (db.Create e).users = db.users := by
  unfold DB.Create
  split <;> rfl

theorem Create_writable (db : DB) (e : Event) : (db.Create e).writable = db.writable := by
  unfold DB.Create
  split <;> rfl

theorem Create_mono (db : DB) (e x : Event) (h : x ∈ db.events) : x ∈ (db.Create e).events := by
  unfold DB.Create
  split
  · exact List.mem_append_left _ h
  · exact h

theorem Create_fresh (db : DB) (e : Event) (hw : db.writable = true)
    (huser : ∃ u ∈ db.users, u.UserCode = e.UserID)
    (hfresh : ∀ x ∈ db.events, x.EventCode ≠ e.EventCode) :
    (db.Create e).events = db.events ++ [{ e with ID := db.nextID }] := by
  have hany : db.events.any (fun x => decide (x.EventCode = e.EventCode)) = false := by
    rw [List.any_eq_false]
    intro x hx
    simpa using hfresh x hx
  have husers : db.users.any (fun u => decide (u.UserCode = e.UserID)) = true := by
    rw [List.any_eq_true]
    obtain ⟨u, hu, hcode⟩ := huser
    exact ⟨u, hu, by simpa using hcode⟩
  unfold DB.Create
  rw [hw, hany, husers]
  simp

theorem mem_Create (db : DB) (e x : Event) (h : x ∈ (db.Create e).events) :
    x ∈ db.events ∨ x.EventCode = e.EventCode := by
  unfold DB.Create at h
  split at h
  · simp only [List.mem_append, List.mem_singleton] at h
    rcases h with h | h
    · exact Or.inl h
    · exact Or.inr (by rw [h])
  · exact Or.inl h

theorem createEvents_cons (db : DB) (q : String) (rest : List String)
    (meetingCode meetingTitle : String) (chosen : Slot) :
    createEvents db (q :: rest) meetingCode meetingTitle chosen =
      createEvents (db.Create ⟨0, meetingCode ++ "-" ++ q, q, meetingTitle, chosen.Start,
        chosen.End⟩) rest meetingCode meetingTitle chosen := by
  simp [createEvents]

theorem createEvents_up (participantIds : List String) (meetingCode meetingTitle : String)
    (chosen : Slot) :
    ∀ db : DB, (createEvents db participantIds meetingCode meetingTitle chosen).up = db.up := by
  induction participantIds with
  | nil => intro db; rfl
  | cons q rest ih =>
    intro db
    rw [createEvents_cons, ih, Create_up]

theorem createEvents_mono (participantIds : List String) (meetingCode meetingTitle : String)
    (chosen : Slot) (x : Event) :
    ∀ db : DB, x ∈ db.events →
      x ∈ (createEvents db participantIds meetingCode meetingTitle chosen).events := by
  induction participantIds with
  | nil => intro db h; exact h
  | cons q rest ih =>
    intro db h
    rw [createEvents_cons]
    exact ih _ (Create_mono db _ x h)

/-- The participant with a row in the users table whose code is free in a
store that accepts inserts gets its event. -/
theorem createEvents_has (participantIds : List String) (meetingCode meetingTitle : String)
    (chosen : Slot) (p : String) :
    ∀ db : DB, db.writable = true → (∃ u ∈ db.users, u.UserCode = p) → p ∈ participantIds →
      (∀ x ∈ db.events, x.EventCode ≠ meetingCode ++ "-" ++ p) →
      ∃ x ∈ (createEvents db participantIds meetingCode meetingTitle chosen).events,
        x.UserID = p ∧ x.StartTime = chosen.Start ∧ x.EndTime = chosen.End ∧
          x.EventCode = meetingCode ++ "-" ++ p := by
  induction participantIds with
  | nil => intro db _ _ hp _; exact absurd hp (List.not_mem_nil _)
  | cons q rest ih =>
    intro db hw huser hp hfresh
    rw [createEvents_cons]
    by_cases hq : q = p
    · subst hq
      refine ⟨⟨db.nextID, meetingCode ++ "-" ++ q, q, meetingTitle, chosen.Start, chosen.End⟩,
        ?_, rfl, rfl, rfl, rfl⟩
      apply createEvents_mono
      rw [Create_fresh db _ hw huser hfresh]
      simp
    · have hp' : p ∈ rest := by
        rcases List.mem_cons.1 hp with h | h
        · exact absurd h.symm hq
        · exact h
      apply ih _ (by rw [Create_writable]; exact hw) (by rw [Create_users]; exact huser) hp'
      intro x hx
      rcases mem_Create db _ x hx with h | h
      · exact hfresh x h
      · intro hcode
        rw [h] at hcode
        exact hq (string_append_cancel _ _ _ hcode)

/-- The rows that `ScheduleEvent` adds when every insert succeeds. -/
theorem createEvents_fresh (participantIds : List String) (meetingCode meetingTitle : String)
    (chosen : Slot) :
    ∀ db : DB, db.writable = true → participantIds.Nodup →
      (∀ p ∈ participantIds, ∃ u ∈ db.users, u.UserCode = p) →
      (∀ p ∈ participantIds, ∀ x ∈ db.events, x.EventCode ≠ meetingCode ++ "-" ++ p) →
      ∃ added : List Event,
        (createEvents db participantIds meetingCode meetingTitle chosen).events =
          db.events ++ added ∧
        added.map Event.UserID = participantIds ∧
        (∀ x ∈ added, x.StartTime = chosen.Start ∧ x.EndTime = chosen.End ∧
          x.Title = meetingTitle ∧ x.EventCode = meetingCode ++ "-" ++ x.UserID) := by
  induction participantIds with
  | nil =>
    intro db _ _ _ _
    exact ⟨[], by simp [createEvents], rfl, by simp⟩
  | cons q rest ih =>
    intro db hw hnodup husers hfresh
    rw [createEvents_cons]
    have hq := hfresh q (List.mem_cons_self _ _)
    have hev := Create_fresh db ⟨0, meetingCode ++ "-" ++ q, q, meetingTitle, chosen.Start,
      chosen.End⟩ hw (husers q (List.mem_cons_self _ _)) hq
    obtain ⟨hqrest, hrest⟩ := List.nodup_cons.1 hnodup
    obtain ⟨added, h1, h2, h3⟩ := ih
      (db.Create ⟨0, meetingCode ++ "-" ++ q, q, meetingTitle, chosen.Start, chosen.End⟩)
      (by rw [Create_writable]; exact hw) hrest
      (by
        intro p hp
        rw [Create_users]
        exact husers p (List.mem_cons_of_mem _ hp))
      (by
        intro p hp x hx
        rw [hev] at hx
        simp only [List.mem_append, List.mem_singleton] at hx
        rcases hx with hx | hx
        · exact hfresh p (List.mem_cons_of_mem _ hp) x hx
        · rw [hx]
          intro hcode
          have := string_append_cancel _ _ _ hcode
          rw [this] at hqrest
          exact hqrest hp)
    refine ⟨⟨db.nextID, meetingCode ++ "-" ++ q, q, meetingTitle, chosen.Start, chosen.End⟩ ::
      added, ?_, ?_, ?_⟩
    · rw [h1, hev]; simp
    · simp [h2]
    · intro x hx
      rcases List.mem_cons.1 hx with h | h
      · rw [h]; exact ⟨rfl, rfl, rfl, rfl⟩
      · exact h3 x h

theorem ScheduleEvent_ok_store (parse : String → Option Time)
    (sortSlice : List scoredSlot → List scoredSlot) (now : String) (db : DB)
    (req : ScheduleRequest) (resp : ScheduledMeetingResponse)
    (h : (ScheduleEvent parse sortSlice now db req).1 = Except.ok resp) :
    resp.MeetingID = "meeting-" ++ now ∧ resp.ParticipantIds = req.ParticipantIds ∧
    (ScheduleEvent parse sortSlice now db req).2 =
      createEvents db req.ParticipantIds resp.MeetingID resp.Title
        ⟨resp.StartTime, resp.EndTime⟩ := by
  obtain ⟨hne, first, rest, hs, hresp⟩ := ScheduleEvent_ok parse sortSlice now db req resp h
  rw [ScheduleEvent_sorted_cons parse sortSlice now db req first rest hne hs, hresp]
  exact ⟨rfl, rfl, rfl⟩

/-! ## The outcomes of `GetCalendarEvents` -/

theorem GetCalendarEvents_window (parse : String → Option Time) (db : DB)
    (userId start end_ : String) (s e : Time) (hup : db.up = true)
    (hs : parse start = some s) (he : parse end_ = some e) (hse : s.ns ≤ e.ns)
    (hstart : start ≠ "") (hend : end_ ≠ "") :
    GetCalendarEvents parse db userId start end_ = Except.ok (db.FindOverlapping userId e s) := by
  have hafter : s.After e = false := by
    simp only [Time.After, decide_eq_false_iff_not]
    omega
  simp [GetCalendarEvents, hs, he, hup, hafter, hstart, hend]

theorem GetCalendarEvents_all (parse : String → Option Time) (db : DB)
    (userId start end_ : String) (hup : db.up = true)
    (hs : start = "" ∨ parse start ≠ none) (he : end_ = "" ∨ parse end_ ≠ none)
    (hrange : ¬ ((parse start).getD Time.zero).ns > ((parse end_).getD Time.zero).ns)
    (hopen : start = "" ∨ end_ = "") :
    GetCalendarEvents parse db userId start end_ = Except.ok (db.FindByUser userId) := by
  have hafter : ((parse start).getD Time.zero).After ((parse end_).getD Time.zero) = false := by
    simp only [Time.After, decide_eq_false_iff_not]
    exact hrange
  have h1 : ¬ ((parse start).isNone = true ∧ start ≠ "") := by
    rintro ⟨hn, hne⟩
    rcases hs with h | h
    · exact hne h
    · exact h (Option.isNone_iff_eq_none.1 hn)
  have h2 : ¬ ((parse end_).isNone = true ∧ end_ ≠ "") := by
    rintro ⟨hn, hne⟩
    rcases he with h | h
    · exact hne h
    · exact h (Option.isNone_iff_eq_none.1 hn)
  unfold GetCalendarEvents
  simp only [if_neg h1, if_neg h2, hafter, Bool.and_false, if_pos hup, if_pos hopen]
  simp

theorem GetCalendarEvents_range_iff (parse : String → Option Time) (db : DB)
    (userId start end_ : String) :
    GetCalendarEvents parse db userId start end_ =
        Except.error "invalid time range: start time cannot be after end time" ↔
      (¬ ((parse start).isNone = true ∧ start ≠ "") ∧
        ¬ ((parse end_).isNone = true ∧ end_ ≠ "") ∧
        (!((parse start).getD Time.zero).IsZero && !((parse end_).getD Time.zero).IsZero &&
          ((parse start).getD Time.zero).After ((parse end_).getD Time.zero)) = true) := by
  by_cases hA : (parse start).isNone = true ∧ start ≠ ""
  · simp only [GetCalendarEvents, if_pos hA]
    constructor
    · intro h; simp at h
    · rintro ⟨h, _⟩; exact absurd hA h
  · by_cases hB : (parse end_).isNone = true ∧ end_ ≠ ""
    · simp only [GetCalendarEvents, if_neg hA, if_pos hB]
      constructor
      · intro h; simp at h
      · rintro ⟨_, h, _⟩; exact absurd hB h
    · by_cases hC : (!((parse start).getD Time.zero).IsZero &&
          !((parse end_).getD Time.zero).IsZero &&
          ((parse start).getD Time.zero).After ((parse end_).getD Time.zero)) = true
      · simp only [GetCalendarEvents, if_neg hA, if_neg hB, if_pos hC]
        exact ⟨fun _ => ⟨hA, hB, hC⟩, fun _ => trivial⟩
      · simp only [GetCalendarEvents, if_neg hA, if_neg hB, if_neg hC]
        constructor
        · intro h
          split at h
          · split at h <;> simp at h
          · simp [storeError] at h
        · rintro ⟨_, _, h⟩; exact absurd h hC

/-! ## The conflict test -/

theorem slotValid_eq_conflicts (eventMap : EventMap) (t end_ : Time) :
    slotValid eventMap t end_ =
      eventMap.all (fun entry => !(entry.2.any (fun ev => conflicts ⟨t, end_⟩ ev))) := rfl

theorem conflicts_iff (a b : Slot) :
    conflicts a b = true ↔ (b.Start.ns < a.End.ns ∧ b.End.ns > a.Start.ns) := by
  simp [conflicts, Time.Before, Time.After]

theorem ScheduleEvent_eq_from (parse : String → Option Time)
    (sortSlice : List scoredSlot → List scoredSlot) (now : String) (db : DB)
    (req : ScheduleRequest) :
    ScheduleEvent parse sortSlice now db req =
      ScheduleEventFrom sortSlice now db req (windowStart parse req) (windowEnd parse req)
        (slotDurationOf req) (requestEventMap parse db req) := rfl

/-! ## The number of iterations -/

theorem loopIterations_stop (endTime : Time) (d : Duration) (fuel : Nat) (t : Time)
    (h : ¬ t.ns + d ≤ endTime.ns) : loopIterations endTime d fuel t = 0 := by
  cases fuel with
  | zero => rfl
  | succ n =>
    have hc : ¬ ((t.Add d).Before endTime || (t.Add d).Equal endTime) = true := by
      simp [Time.Before, Time.Equal, Time.Add]
      omega
    rw [loopIterations, if_neg hc]

theorem loopIterations_eq (endTime : Time) (d : Duration) :
    ∀ (n extra : Nat) (t : Time),
      (∀ k : Nat, k < n → (t.stepped k).ns + d ≤ endTime.ns) →
      ¬ (t.stepped n).ns + d ≤ endTime.ns →
      loopIterations endTime d (n + extra) t = n := by
  intro n
  induction n with
  | zero =>
    intro extra t _ hstop
    simp only [Time.stepped] at hstop
    exact loopIterations_stop endTime d _ t hstop
  | succ m ih =>
    intro extra t hrun hstop
    have h0 := hrun 0 (by omega)
    simp only [Time.stepped] at h0
    have hc : ((t.Add d).Before endTime || (t.Add d).Equal endTime) = true := by
      simp [Time.Before, Time.Equal, Time.Add]
      omega
    have hfuel : m + 1 + extra = (m + extra) + 1 := by omega
    rw [hfuel, loopIterations, if_pos hc, ih extra (t.Add (30 * Minute))]
    · intro k hk
      rw [stepped_succ]
      exact hrun (k + 1) (by omega)
    · rw [stepped_succ]
      exact hstop

theorem loopIterations_le (endTime : Time) (d : Duration) :
    ∀ (fuel : Nat) (t : Time), loopIterations endTime d fuel t ≤ fuel := by
  intro fuel
  induction fuel with
  | zero => intro t; simp [loopIterations]
  | succ n ih =>
    intro t
    rw [loopIterations]
    split
    · have := ih (t.Add (30 * Minute)); omega
    · omega

/-! ## Rearranged maps -/

theorem ScoreSlot_perm (slot : Slot) (xs ys : List Slot) (h : xs.Perm ys) :
    ScoreSlot slot xs = ScoreSlot slot ys := by
  rw [ScoreSlot_eq_sum, ScoreSlot_eq_sum, (h.map (bufferPenalty slot)).sum_eq,
    (h.map (gapPenalty slot)).sum_eq]

theorem entrywise_holds (mid m' : EventMap)
    (hall : List.Forall₂ (fun a b : String × List Slot => a.1 = b.1 ∧ a.2.Perm b.2) mid m')
    (s : Slot) : (∃ entry ∈ mid, s ∈ entry.2) ↔ (∃ entry ∈ m', s ∈ entry.2) := by
  induction hall with
  | nil => simp
  | cons hab _ ih =>
    simp only [List.mem_cons, exists_eq_or_imp, ih, hab.2.mem_iff]

theorem entrywise_score (mid m' : EventMap)
    (hall : List.Forall₂ (fun a b : String × List Slot => a.1 = b.1 ∧ a.2.Perm b.2) mid m')
    (slot : Slot) :
    (m'.map (fun entry : String × List Slot => ScoreSlot slot entry.2)).sum =
      (mid.map (fun entry : String × List Slot => ScoreSlot slot entry.2)).sum := by
  induction hall with
  | nil => rfl
  | cons hab _ ih =>
    simp only [List.map_cons, List.sum_cons]
    rw [ih, ScoreSlot_perm slot _ _ hab.2]

theorem rearranged_holds (m m' : EventMap) (h : m.Rearranged m') (s : Slot) :
    (∃ entry ∈ m, s ∈ entry.2) ↔ (∃ entry ∈ m', s ∈ entry.2) := by
  obtain ⟨mid, hperm, hall⟩ := h
  have hmid := entrywise_holds mid m' hall s
  rw [← hmid]
  constructor
  · rintro ⟨entry, hmem, hs⟩; exact ⟨entry, hperm.subset hmem, hs⟩
  · rintro ⟨entry, hmem, hs⟩; exact ⟨entry, hperm.symm.subset hmem, hs⟩

theorem slotValid_rearranged (m m' : EventMap) (h : m.Rearranged m') (t end_ : Time) :
    slotValid m' t end_ = slotValid m t end_ := by
  rw [Bool.eq_iff_iff, slotValid_iff, slotValid_iff]
  constructor
  · intro hv entry hentry ev hev
    obtain ⟨entry', hentry', hev'⟩ := (rearranged_holds m m' h ev).1 ⟨entry, hentry, hev⟩
    exact hv entry' hentry' ev hev'
  · intro hv entry hentry ev hev
    obtain ⟨entry', hentry', hev'⟩ := (rearranged_holds m m' h ev).2 ⟨entry, hentry, hev⟩
    exact hv entry' hentry' ev hev'

theorem totalScore_rearranged (m m' : EventMap) (h : m.Rearranged m') (slot : Slot) :
    totalScore m' slot = totalScore m slot := by
  obtain ⟨mid, hperm, hall⟩ := h
  rw [totalScore_eq_sum, totalScore_eq_sum,
    (hperm.map (fun entry : String × List Slot => ScoreSlot slot entry.2)).sum_eq]
  exact entrywise_score mid m' hall slot

theorem candidateLoop_congr (m m' : EventMap)
    (h : ∀ t end_ : Time, slotValid m' t end_ = slotValid m t end_) (endTime : Time)
    (d : Duration) :
    ∀ (fuel : Nat) (t : Time),
      candidateLoop m' endTime d fuel t = candidateLoop m endTime d fuel t := by
  intro fuel
  induction fuel with
  | zero => intro t; rfl
  | succ n ih =>
    intro t
    simp only [candidateLoop, ih, h]

theorem scoreSlots_congr (m m' : EventMap)
    (h : ∀ slot : Slot, totalScore m' slot = totalScore m slot) (cands : List Slot) :
    scoreSlots m' cands = scoreSlots m cands := by
  unfold scoreSlots
  apply List.map_congr_left
  intro slot _
  rw [h]

/-! ## Double booking -/

/-- The rows that the inserts of `ScheduleEvent` append: at most one per
participant, in order, with the times of the chosen slot. -/
theorem createEvents_shape (participantIds : List String) (meetingCode meetingTitle : String)
    (chosen : Slot) :
    ∀ db : DB, ∃ added : List Event,
      (createEvents db participantIds meetingCode meetingTitle chosen).events =
        db.events ++ added ∧
      (added.map Event.UserID).Sublist participantIds ∧
      (∀ x ∈ added, x.StartTime = chosen.Start ∧ x.EndTime = chosen.End) := by
  induction participantIds with
  | nil =>
    intro db
    exact ⟨[], by simp [createEvents], by simp, by simp⟩
  | cons q rest ih =>
    intro db
    rw [createEvents_cons]
    obtain ⟨added, h1, h2, h3⟩ := ih (db.Create ⟨0, meetingCode ++ "-" ++ q, q, meetingTitle,
      chosen.Start, chosen.End⟩)
    by_cases hc : (db.writable && db.users.any (fun u => decide (u.UserCode = q)) &&
        !(db.events.any (fun x => decide (x.EventCode = meetingCode ++ "-" ++ q)))) = true
    · have hcreate : (db.Create ⟨0, meetingCode ++ "-" ++ q, q, meetingTitle, chosen.Start,
          chosen.End⟩).events =
          db.events ++ [⟨db.nextID, meetingCode ++ "-" ++ q, q, meetingTitle, chosen.Start,
            chosen.End⟩] := by
        simp only [DB.Create, hc, if_true]
      refine ⟨⟨db.nextID, meetingCode ++ "-" ++ q, q, meetingTitle, chosen.Start, chosen.End⟩ ::
        added, ?_, ?_, ?_⟩
      · rw [h1, hcreate]; simp
      · simp only [List.map_cons]
        exact h2.cons₂ q
      · intro x hx
        rcases List.mem_cons.1 hx with h | h
        · rw [h]; exact ⟨rfl, rfl⟩
        · exact h3 x h
    · have hcreate : (db.Create ⟨0, meetingCode ++ "-" ++ q, q, meetingTitle, chosen.Start,
          chosen.End⟩).events = db.events := by
        simp only [DB.Create, hc]
        simp
      refine ⟨added, ?_, h2.cons q, h3⟩
      rw [h1, hcreate]

/-- A survivor overlaps no stored event of a participant of the request, when
the store answers. -/
theorem survivor_overlaps_no_stored_event (parse : String → Option Time) (db : DB)
    (req : ScheduleRequest) (slot : Slot) (p : String) (x : Event)
    (hslot : slot ∈ survivors parse db req) (hup : db.up = true)
    (hp : p ∈ req.ParticipantIds) (hx : x ∈ db.events) (huser : x.UserID = p) :
    ¬ (slot.Start.ns < x.EndTime.ns ∧ slot.End.ns > x.StartTime.ns) := by
  rintro ⟨h1, h2⟩
  obtain ⟨k, hk, hvalid, hs⟩ := (mem_candidateSlots _ _ _ _ _).1 hslot
  have hstart : slot.Start.ns = ((windowStart parse req).stepped k).ns := by rw [hs]
  have hend : slot.End.ns = ((windowStart parse req).stepped k).ns + slotDurationOf req := by
    rw [hs]; rfl
  have hns := stepped_ns (windowStart parse req) k
  have hk0 : (0 : Int) ≤ (k : Int) * (30 * Minute) := by
    simp only [Minute]; positivity
  have hfind : x ∈ db.FindOverlapping p (windowEnd parse req) (windowStart parse req) :=
    (mem_FindOverlapping _ _ _ _ _).2 ⟨hup, hx, huser, by omega, by omega⟩
  obtain ⟨entry, hentry, _, hb⟩ :
      (requestEventMap parse db req).Holds p ⟨x.StartTime, x.EndTime⟩ :=
    (loadEventMap_holds _ _ _ _ _ _).2 ⟨hp, x, hfind, rfl⟩
  have hfree := (slotValid_iff _ _ _).1 hvalid entry hentry ⟨x.StartTime, x.EndTime⟩ hb
  simp only [Time.Add] at hfree
  exact hfree ⟨by omega, by omega⟩

/-- On a store that answers the overlap queries, if no participant has two
stored events that overlap and the participant ids of the request are pairwise distinct, then
after a successful `ScheduleEvent` no participant has two stored events that
overlap; and the chosen slot overlaps no event stored before the call for a
participant of the request, loaded or not. -/
theorem no_double_booking_when_queries_answer (parse : String → Option Time)
    (sortSlice : List scoredSlot → List scoredSlot) (now : String) (db : DB)
    (req : ScheduleRequest) (resp : ScheduledMeetingResponse)
    (hsort : SortsByScore sortSlice)
    (hok : (ScheduleEvent parse sortSlice now db req).1 = Except.ok resp)
    (hup : db.up = true) (hnodup : req.ParticipantIds.Nodup)
    (hinv : NoDoubleBooking db.events) :
    NoDoubleBooking (ScheduleEvent parse sortSlice now db req).2.events ∧
    (∀ p ∈ req.ParticipantIds, ∀ x ∈ db.events, x.UserID = p →
      ¬ (resp.StartTime.ns < x.EndTime.ns ∧ resp.EndTime.ns > x.StartTime.ns)) := by
  have hmem := ScheduleEvent_ok_mem parse sortSlice now db req resp hsort hok
  have hchosen : ∀ p ∈ req.ParticipantIds, ∀ x ∈ db.events, x.UserID = p →
      ¬ (resp.StartTime.ns < x.EndTime.ns ∧ resp.EndTime.ns > x.StartTime.ns) :=
    fun p hp x hx huser =>
      survivor_overlaps_no_stored_event parse db req ⟨resp.StartTime, resp.EndTime⟩ p x hmem hup
        hp hx huser
  refine ⟨?_, hchosen⟩
  obtain ⟨_, _, hstore⟩ := ScheduleEvent_ok_store parse sortSlice now db req resp hok
  obtain ⟨added, h1, h2, h3⟩ := createEvents_shape req.ParticipantIds resp.MeetingID resp.Title
    ⟨resp.StartTime, resp.EndTime⟩ db
  rw [hstore, h1]
  unfold NoDoubleBooking at hinv ⊢
  rw [List.pairwise_append]
  refine ⟨hinv, ?_, ?_⟩
  · have hnd : (added.map Event.UserID).Nodup := h2.nodup hnodup
    rw [List.Nodup, List.pairwise_map] at hnd
    exact hnd.imp (fun {a b} hne heq => absurd heq hne)
  · intro a ha b hb heq
    have hbuser : b.UserID ∈ req.ParticipantIds :=
      h2.subset (List.mem_map.2 ⟨b, hb, rfl⟩)
    have hfree := hchosen b.UserID hbuser a ha heq
    obtain ⟨hbs, hbe⟩ := h3 b hb
    simp only at hbs hbe
    rw [hbs, hbe]
    intro hov
    exact hfree ⟨hov.2, hov.1⟩

/-- The morning request on the one-event store: `u1` is busy 10:00-10:30, the
slot 09:00-10:00 is booked, and the two events of `u1` do not overlap. -/
theorem no_double_booking_when_queries_answer_witness :
    SortsByScore insertionSort ∧
    (ScheduleEvent parseAug9 insertionSort "20250809120000" storeOneEvent requestMorning).1 =
      Except.ok ⟨"meeting-20250809120000", "New Meeting", ["u1"], aug9 9 0, aug9 10 0⟩ ∧
    storeOneEvent.up = true ∧ requestMorning.ParticipantIds.Nodup ∧
    NoDoubleBooking storeOneEvent.events ∧
    (ScheduleEvent parseAug9 insertionSort "20250809120000" storeOneEvent
        requestMorning).2.events =
      [⟨1, "event1", "u1", "Team Standup", aug9 10 0, aug9 10 30⟩,
        ⟨2, "meeting-20250809120000-u1", "u1", "New Meeting", aug9 9 0, aug9 10 0⟩] ∧
    (NoDoubleBooking (ScheduleEvent parseAug9 insertionSort "20250809120000" storeOneEvent
        requestMorning).2.events ∧
    (∀ p ∈ requestMorning.ParticipantIds, ∀ x ∈ storeOneEvent.events, x.UserID = p →
      ¬ ((aug9 9 0).ns < x.EndTime.ns ∧ (aug9 10 0).ns > x.StartTime.ns))) :=
  ⟨insertionSort_sortsByScore, rfl, rfl, by decide,
    by simp [NoDoubleBooking, storeOneEvent], rfl,
    no_double_booking_when_queries_answer parseAug9 insertionSort "20250809120000" storeOneEvent
      requestMorning ⟨"meeting-20250809120000", "New Meeting", ["u1"], aug9 9 0, aug9 10 0⟩
      insertionSort_sortsByScore rfl rfl (by decide)
      (by simp [NoDoubleBooking, storeOneEvent])⟩

/-! ## Claims -/

/-- C1: the candidate of the k-th iteration of the enumeration loop of
`ScheduleEvent` is in `candidateSlots` if and only if the loop reaches it
(`t + duration <= endTime`) and no busy interval b of any entry of the busy-set
map has `b.Start < t + duration` and `b.End > t`; hence no slot of
`candidateSlots` overlaps any busy interval of any participant. -/
theorem candidate_kept_iff_no_conflict (eventMap : EventMap) (startTime endTime : Time)
    (slotDuration : Duration) :
    (∀ k : Nat,
      (Slot.mk (startTime.stepped k) ((startTime.stepped k).Add slotDuration) ∈
          candidateSlots eventMap startTime endTime slotDuration ↔
        ((startTime.stepped k).ns + slotDuration ≤ endTime.ns ∧
          ∀ entry ∈ eventMap, ∀ b ∈ entry.2,
            ¬ (b.Start.ns < (startTime.stepped k).ns + slotDuration ∧
                b.End.ns > (startTime.stepped k).ns)))) ∧
    (∀ slot ∈ candidateSlots eventMap startTime endTime slotDuration,
      ∀ entry ∈ eventMap, ∀ b ∈ entry.2,
        ¬ (b.Start.ns < slot.End.ns ∧ b.End.ns > slot.Start.ns)) := by
  constructor
  · intro k
    rw [mem_candidateSlots]
    constructor
    · rintro ⟨j, h1, h2, h3⟩
      have hjk : k = j := stepped_injective startTime k j (congrArg Slot.Start h3)
      subst hjk
      exact ⟨h1, (slotValid_iff _ _ _).1 h2⟩
    · rintro ⟨h1, h2⟩
      exact ⟨k, h1, (slotValid_iff _ _ _).2 h2, rfl⟩
  · intro slot hslot
    obtain ⟨k, _, h2, h3⟩ := (mem_candidateSlots _ _ _ _ _).1 hslot
    subst h3
    exact (slotValid_iff _ _ _).1 h2

/-- C2: whenever `ScheduleEvent` succeeds (with a `sort.Slice` that sorts), the
chosen slot is a surviving candidate and no surviving candidate has a strictly
lower total score. -/
theorem chosen_has_minimum_score (parse : String → Option Time)
    (sortSlice : List scoredSlot → List scoredSlot) (now : String) (db : DB)
    (req : ScheduleRequest) (resp : ScheduledMeetingResponse)
    (hsort : SortsByScore sortSlice)
    (hok : (ScheduleEvent parse sortSlice now db req).1 = Except.ok resp) :
    Slot.mk resp.StartTime resp.EndTime ∈ survivors parse db req ∧
    ∀ s ∈ survivors parse db req,
      ¬ totalScore (requestEventMap parse db req) s <
        totalScore (requestEventMap parse db req) ⟨resp.StartTime, resp.EndTime⟩ := by
  obtain ⟨_, first, rest, hs, hresp⟩ := ScheduleEvent_ok parse sortSlice now db req resp hok
  obtain ⟨hperm, hpair⟩ := hsort (scoreSlots (requestEventMap parse db req) (survivors parse db req))
  rw [hs] at hperm hpair
  have hfirst : first ∈ scoreSlots (requestEventMap parse db req) (survivors parse db req) :=
    hperm.subset (List.mem_cons_self _ _)
  obtain ⟨slot, hslot, hfs⟩ := (mem_scoreSlots _ _ _).1 hfirst
  have hchosen : Slot.mk resp.StartTime resp.EndTime = slot := by
    rw [hresp, hfs]
  rw [hchosen]
  refine ⟨hslot, ?_⟩
  intro s hsmem
  have hsin : (⟨s, totalScore (requestEventMap parse db req) s⟩ : scoredSlot) ∈ first :: rest :=
    hperm.symm.subset ((mem_scoreSlots _ _ _).2 ⟨s, hsmem, rfl⟩)
  rcases List.mem_cons.1 hsin with h | h
  · rw [hfs] at h
    have hsc := congrArg scoredSlot.score h
    simp only at hsc
    omega
  · have := (List.pairwise_cons.1 hpair).1 _ h
    rw [hfs] at this
    exact this

/-- The morning request on the one-event store: 09:00-10:00 is chosen, with
score 3, against 4 for 08:00 and 08:30. -/
theorem chosen_has_minimum_score_witness :
    SortsByScore insertionSort ∧
    (ScheduleEvent parseAug9 insertionSort "20250809120000" storeOneEvent requestMorning).1 =
      Except.ok ⟨"meeting-20250809120000", "New Meeting", ["u1"], aug9 9 0, aug9 10 0⟩ ∧
    (Slot.mk (aug9 9 0) (aug9 10 0) ∈ survivors parseAug9 storeOneEvent requestMorning ∧
      ∀ s ∈ survivors parseAug9 storeOneEvent requestMorning,
        ¬ totalScore (requestEventMap parseAug9 storeOneEvent requestMorning) s <
          totalScore (requestEventMap parseAug9 storeOneEvent requestMorning)
            ⟨aug9 9 0, aug9 10 0⟩) :=
  ⟨insertionSort_sortsByScore, rfl,
    chosen_has_minimum_score parseAug9 insertionSort "20250809120000" storeOneEvent requestMorning
      ⟨"meeting-20250809120000", "New Meeting", ["u1"], aug9 9 0, aug9 10 0⟩
      insertionSort_sortsByScore rfl⟩

/-- C3 (evaluation at the failing input): on the night request, thirteen
candidates survive, 01:00 and 03:30 both have the minimum total score 4, and
with a sort that meets the contract of `sort.Slice` the call returns 03:30, not
the chronologically earliest 01:00.  The stable insertion sort returns 01:00. -/
theorem earliest_tie_not_chosen :
    SortsByScore pivotFirstSort ∧
    (survivors parseAug9 storeMidnight requestNight).length = 13 ∧
    (ScheduleEvent parseAug9 pivotFirstSort "20250809120000" storeMidnight requestNight).1 =
      Except.ok ⟨"meeting-20250809120000", "New Meeting", ["u1"], aug9 3 30, aug9 4 0⟩ ∧
    Slot.mk (aug9 1 0) (aug9 1 30) ∈ survivors parseAug9 storeMidnight requestNight ∧
    totalScore (requestEventMap parseAug9 storeMidnight requestNight) ⟨aug9 1 0, aug9 1 30⟩ = 4 ∧
    totalScore (requestEventMap parseAug9 storeMidnight requestNight) ⟨aug9 3 30, aug9 4 0⟩ = 4 ∧
    (aug9 1 0).Before (aug9 3 30) = true ∧
    (ScheduleEvent parseAug9 insertionSort "20250809120000" storeMidnight requestNight).1 =
      Except.ok ⟨"meeting-20250809120000", "New Meeting", ["u1"], aug9 1 0, aug9 1 30⟩ :=
  ⟨pivotFirstSort_sortsByScore, rfl, rfl, by decide, rfl, rfl, rfl, rfl⟩

/-- C4: `ScheduleEvent` returns the error "no available time slot found for all
participants" if and only if no candidate survives the conflict filter; then it
returns no response and leaves the store as it was; and when at least one
candidate survives (and `sort.Slice` sorts) it returns a response and no error. -/
theorem no_slot_error_iff_no_survivor (parse : String → Option Time)
    (sortSlice : List scoredSlot → List scoredSlot) (now : String) (db : DB)
    (req : ScheduleRequest) (hsort : SortsByScore sortSlice) :
    ((ScheduleEvent parse sortSlice now db req).1 =
        Except.error "no available time slot found for all participants" ↔
      survivors parse db req = []) ∧
    (survivors parse db req = [] →
      ScheduleEvent parse sortSlice now db req =
        (Except.error "no available time slot found for all participants", db)) ∧
    (survivors parse db req ≠ [] →
      ∃ resp, (ScheduleEvent parse sortSlice now db req).1 = Except.ok resp) := by
  have hcons : survivors parse db req ≠ [] →
      ∃ first rest,
        sortSlice (scoreSlots (requestEventMap parse db req) (survivors parse db req)) =
          first :: rest := by
    intro hne
    cases hs : sortSlice (scoreSlots (requestEventMap parse db req) (survivors parse db req)) with
    | nil =>
      have hperm := (hsort (scoreSlots (requestEventMap parse db req) (survivors parse db req))).1
      rw [hs] at hperm
      have hnil := hperm.symm.eq_nil
      simp only [scoreSlots, List.map_eq_nil_iff] at hnil
      exact absurd hnil hne
    | cons first rest => exact ⟨first, rest, rfl⟩
  refine ⟨⟨?_, ?_⟩, ?_, ?_⟩
  · intro herr
    by_contra hne
    obtain ⟨first, rest, hs⟩ := hcons hne
    rw [ScheduleEvent_sorted_cons parse sortSlice now db req first rest hne hs] at herr
    simp at herr
  · intro hnil
    rw [ScheduleEvent_no_survivor parse sortSlice now db req hnil]
  · exact ScheduleEvent_no_survivor parse sortSlice now db req
  · intro hne
    obtain ⟨first, rest, hs⟩ := hcons hne
    rw [ScheduleEvent_sorted_cons parse sortSlice now db req first rest hne hs]
    exact ⟨_, rfl⟩

/-- The busy request on the one-event store has no survivor: only the first
two parts say something there; the morning request exercises the third. -/
theorem no_slot_error_iff_no_survivor_witness :
    SortsByScore insertionSort ∧
    survivors parseAug9 storeOneEvent requestBusy = [] ∧
    (((ScheduleEvent parseAug9 insertionSort "20250809120000" storeOneEvent requestBusy).1 =
        Except.error "no available time slot found for all participants" ↔
      survivors parseAug9 storeOneEvent requestBusy = []) ∧
    (survivors parseAug9 storeOneEvent requestBusy = [] →
      ScheduleEvent parseAug9 insertionSort "20250809120000" storeOneEvent requestBusy =
        (Except.error "no available time slot found for all participants", storeOneEvent)) ∧
    (survivors parseAug9 storeOneEvent requestBusy ≠ [] →
      ∃ resp, (ScheduleEvent parseAug9 insertionSort "20250809120000" storeOneEvent
        requestBusy).1 = Except.ok resp)) :=
  ⟨insertionSort_sortsByScore, rfl,
    no_slot_error_iff_no_survivor parseAug9 insertionSort "20250809120000" storeOneEvent
      requestBusy insertionSort_sortsByScore⟩

/-- C5: with no busy interval in the busy-set map, the enumeration loop of
`ScheduleEvent` generates `floor((W - D) / S) + 1` candidates when `W >= D`, and
none otherwise, for the window width `W = endTime - startTime`, every duration
`D` and the step `S` of 30 minutes. -/
theorem candidate_count_formula (eventMap : EventMap) (startTime endTime : Time)
    (slotDuration : Duration) (hfree : ∀ entry ∈ eventMap, entry.2 = []) :
    ((candidateSlots eventMap startTime endTime slotDuration).length : Int) =
      if endTime.ns - startTime.ns ≥ slotDuration then
        (endTime.ns - startTime.ns - slotDuration) / (30 * Minute) + 1
      else 0 := by
  rw [candidateSlots_length_free eventMap startTime endTime slotDuration hfree]
  simp only [loopFuel, Minute]
  split <;> omega

/-- A window 09:00-10:00 exactly as wide as the duration of 60 minutes yields
one candidate, 09:00-10:00. -/
theorem candidate_count_formula_witness :
    (∀ entry ∈ ([] : EventMap), entry.2 = []) ∧
    candidateSlots [] (aug9 9 0) (aug9 10 0) (60 * Minute) = [⟨aug9 9 0, aug9 10 0⟩] ∧
    ((candidateSlots [] (aug9 9 0) (aug9 10 0) (60 * Minute)).length : Int) =
      if (aug9 10 0).ns - (aug9 9 0).ns ≥ 60 * Minute then
        ((aug9 10 0).ns - (aug9 9 0).ns - 60 * Minute) / (30 * Minute) + 1
      else 0 :=
  ⟨by simp, rfl,
    candidate_count_formula [] (aug9 9 0) (aug9 10 0) (60 * Minute) (by simp)⟩

/-- C6 (as stated, refuted): the request of `2^53 + 30` minutes between 09:00
and 10:00 succeeds with the slot 09:00-09:30, whose length is 30 minutes, not
the requested number of minutes. -/
theorem chosen_length_overflow :
    SortsByScore insertionSort ∧
    (ScheduleEvent parseAug9 insertionSort "20250809120000" storeOneEvent requestHuge).1 =
      Except.ok ⟨"meeting-20250809120000", "New Meeting", ["u2"], aug9 9 0, aug9 9 30⟩ ∧
    0 < requestHuge.DurationMinutes ∧
    (aug9 9 30).ns - (aug9 9 0).ns ≠ requestHuge.DurationMinutes * Minute :=
  ⟨insertionSort_sortsByScore, rfl, by decide, by decide⟩

/-- C6 (amended): whenever `ScheduleEvent` succeeds with a positive number of
minutes that fits a `time.Duration` (at most 153722867), the chosen slot starts
at or after the window start, ends at or before the window end, lasts
`DurationMinutes` minutes, and starts a whole number of 30-minute steps after
the window start. -/
theorem chosen_fits_window (parse : String → Option Time)
    (sortSlice : List scoredSlot → List scoredSlot) (now : String) (db : DB)
    (req : ScheduleRequest) (resp : ScheduledMeetingResponse)
    (hsort : SortsByScore sortSlice)
    (hok : (ScheduleEvent parse sortSlice now db req).1 = Except.ok resp)
    (hpos : 0 < req.DurationMinutes) (hfit : req.DurationMinutes ≤ 153722867) :
    (windowStart parse req).ns ≤ resp.StartTime.ns ∧
    resp.EndTime.ns ≤ (windowEnd parse req).ns ∧
    resp.EndTime.ns - resp.StartTime.ns = req.DurationMinutes * Minute ∧
    ∃ k : Nat, resp.StartTime.ns - (windowStart parse req).ns = k * (30 * Minute) := by
  have hmem := ScheduleEvent_ok_mem parse sortSlice now db req resp hsort hok
  obtain ⟨k, hk, _, hslot⟩ := (mem_candidateSlots _ _ _ _ _).1 hmem
  have hstart : resp.StartTime = (windowStart parse req).stepped k := congrArg Slot.Start hslot
  have hend : resp.EndTime = ((windowStart parse req).stepped k).Add (slotDurationOf req) :=
    congrArg Slot.End hslot
  have hd : slotDurationOf req = req.DurationMinutes * Minute :=
    wrap64_minutes req.DurationMinutes hpos hfit
  have hns := stepped_ns (windowStart parse req) k
  rw [hstart, hend]
  simp only [Time.Add]
  rw [hd] at hk ⊢
  refine ⟨?_, hk, by ring, k, ?_⟩
  · rw [hns]
    have : (0 : Int) ≤ (k : Int) * (30 * Minute) := by
      simp only [Minute]; positivity
    omega
  · rw [hns]; ring

/-- The morning request: 60 minutes, chosen slot 09:00-10:00 in the window
08:00-11:00, two steps after its start. -/
theorem chosen_fits_window_witness :
    SortsByScore insertionSort ∧
    (ScheduleEvent parseAug9 insertionSort "20250809120000" storeOneEvent requestMorning).1 =
      Except.ok ⟨"meeting-20250809120000", "New Meeting", ["u1"], aug9 9 0, aug9 10 0⟩ ∧
    0 < requestMorning.DurationMinutes ∧ requestMorning.DurationMinutes ≤ 153722867 ∧
    ((windowStart parseAug9 requestMorning).ns ≤ (aug9 9 0).ns ∧
      (aug9 10 0).ns ≤ (windowEnd parseAug9 requestMorning).ns ∧
      (aug9 10 0).ns - (aug9 9 0).ns = requestMorning.DurationMinutes * Minute ∧
      ∃ k : Nat, (aug9 9 0).ns - (windowStart parseAug9 requestMorning).ns = k * (30 * Minute)) :=
  ⟨insertionSort_sortsByScore, rfl, by decide, by decide,
    chosen_fits_window parseAug9 insertionSort "20250809120000" storeOneEvent requestMorning
      ⟨"meeting-20250809120000", "New Meeting", ["u1"], aug9 9 0, aug9 10 0⟩
      insertionSort_sortsByScore rfl (by decide) (by decide)⟩

/-- C7 (as stated, refuted): for the participant without stored events the
09:00 candidate gets the total score 0, not the hour penalty 1; and for two
participants whose only busy intervals are far away (13:00-14:00, adjacency
penalty 0) the 09:00 candidate gets 2. -/
theorem hour_penalty_not_counted_once :
    requestEventMap parseAug9 storeTwoUsers requestFree = [] ∧
    scoreSlots (requestEventMap parseAug9 storeTwoUsers requestFree)
      (survivors parseAug9 storeTwoUsers requestFree) = [⟨⟨aug9 9 0, aug9 10 0⟩, 0⟩] ∧
    (aug9 9 0).Hour = 9 ∧
    ScoreSlot ⟨aug9 9 0, aug9 10 0⟩ [] = 1 ∧
    requestEventMap parseAug9 storeTwoUsers requestDay =
      [("u1", [⟨aug9 13 0, aug9 14 0⟩]), ("u2", [⟨aug9 13 0, aug9 14 0⟩])] ∧
    Slot.mk (aug9 9 0) (aug9 10 0) ∈ survivors parseAug9 storeTwoUsers requestDay ∧
    ScoreSlot ⟨aug9 9 0, aug9 10 0⟩ [⟨aug9 13 0, aug9 14 0⟩] - ScoreSlot ⟨aug9 9 0, aug9 10 0⟩ [] = 0 ∧
    totalScore (requestEventMap parseAug9 storeTwoUsers requestDay) ⟨aug9 9 0, aug9 10 0⟩ = 2 :=
  ⟨rfl, rfl, rfl, rfl, rfl, by decide, rfl, rfl⟩

/-- C7 (amended): the total score that `ScheduleEvent` gives a candidate is the
hour-of-day penalty of its start hour counted once per entry of `eventMap`, plus
the adjacency penalties of all busy intervals of all entries; and the entries
of the map of a request are, once each, the participants of the request with
at least one stored event overlapping the window (none when there is no such
event, so that the hour penalty is then not counted at all). -/
theorem total_score_decomposition (parse : String → Option Time) (db : DB)
    (req : ScheduleRequest) :
    (∀ (eventMap : EventMap) (slot : Slot),
      totalScore eventMap slot =
        eventMap.length * hourBucket slot.Start.Hour +
          (eventMap.map (fun entry =>
            (entry.2.map (fun b => ScoreSlot slot [b] - ScoreSlot slot [])).sum)).sum) ∧
    ((requestEventMap parse db req).map Prod.fst).Nodup ∧
    (∀ u, u ∈ (requestEventMap parse db req).map Prod.fst ↔
      (u ∈ req.ParticipantIds ∧
        db.FindOverlapping u (windowEnd parse req) (windowStart parse req) ≠ [])) := by
  refine ⟨?_, (loadEventMap_keys db req.ParticipantIds _ _).1,
    (loadEventMap_keys db req.ParticipantIds _ _).2⟩
  intro eventMap slot
  rw [totalScore_eq_sum]
  induction eventMap with
  | nil => simp
  | cons entry rest ih =>
    simp only [List.map_cons, List.sum_cons, List.length_cons, ih]
    have hentry : ScoreSlot slot entry.2 = hourBucket slot.Start.Hour +
        (entry.2.map (fun b => ScoreSlot slot [b] - ScoreSlot slot [])).sum := by
      rw [ScoreSlot_eq_sum]
      have : (fun b => ScoreSlot slot [b] - ScoreSlot slot []) =
          (fun b => bufferPenalty slot b + gapPenalty slot b) := by
        funext b; exact ScoreSlot_single slot b
      rw [this, List.sum_map_add]
      ring
    rw [hentry]
    push_cast
    ring

/-- C8: with no busy interval, `ScoreSlot` is the hour-of-day penalty of the
start hour h of the slot at the offset of the slot: 4 for `0 <= h < 9`, 1 for
`9 <= h < 12`, 2 for `12 <= h < 16`, 3 for `16 <= h < 24`; and h is in `[0, 24)`. -/
theorem score_without_events (slot : Slot) :
    (0 ≤ slot.Start.Hour ∧ slot.Start.Hour < 24) ∧
    (0 ≤ slot.Start.Hour ∧ slot.Start.Hour < 9 → ScoreSlot slot [] = 4) ∧
    (9 ≤ slot.Start.Hour ∧ slot.Start.Hour < 12 → ScoreSlot slot [] = 1) ∧
    (12 ≤ slot.Start.Hour ∧ slot.Start.Hour < 16 → ScoreSlot slot [] = 2) ∧
    (16 ≤ slot.Start.Hour ∧ slot.Start.Hour < 24 → ScoreSlot slot [] = 3) := by
  refine ⟨Hour_range slot.Start, ?_, ?_, ?_, ?_⟩ <;>
  · intro h
    rw [ScoreSlot_nil]
    unfold hourBucket
    split_ifs <;> omega

/-- C9 (as stated, refuted): the busy hour of the year 1700 lies more than
`2^63` nanoseconds before the slot 09:00-09:30 of 2025-08-09, both intervals have
`End >= Start` and do not conflict, the gap is far above 30 minutes, and yet the
interval adds 2 to `ScoreSlot`: `event.Start.Sub(slot.End)` saturates at the
smallest duration, of which `absDuration` returns a negative value. -/
theorem far_interval_gets_buffer_penalty :
    (aug9 9 0).ns ≤ (aug9 9 30).ns ∧ slotYear1700.Start.ns ≤ slotYear1700.End.ns ∧
    ¬ (slotYear1700.Start.ns < (aug9 9 30).ns ∧ slotYear1700.End.ns > (aug9 9 0).ns) ∧
    slotYear1700.End.ns ≤ (aug9 9 0).ns ∧
    (aug9 9 0).ns - slotYear1700.End.ns ≥ 30 * Minute ∧
    slotYear1700.Start.Sub (aug9 9 30) = minDuration ∧
    absDuration minDuration = minDuration ∧
    ScoreSlot ⟨aug9 9 0, aug9 9 30⟩ [slotYear1700] - ScoreSlot ⟨aug9 9 0, aug9 9 30⟩ [] = 2 :=
  ⟨by decide, by decide, by decide, by decide, by decide, rfl, rfl, rfl⟩

/-- C9 (amended): for a slot and a busy interval, both with `End >= Start`, not
conflicting, and less than `2^63` nanoseconds (about 292 years) apart from the
start of either to the end of the other, the interval lies before or after the
slot, and with the gap g between them (`slot.Start - b.End` before,
`b.Start - slot.End` after) `ScoreSlot(slot, [b]) - ScoreSlot(slot, [])` is 2 for
`g = 0`, 3 for `0 < g < 15 min`, 1 for `15 min <= g < 30 min`, 0 for `g >= 30 min`. -/
theorem adjacency_contribution_by_gap (slot b : Slot)
    (hslot : slot.Start.ns ≤ slot.End.ns) (hb : b.Start.ns ≤ b.End.ns)
    (hfree : ¬ (b.Start.ns < slot.End.ns ∧ b.End.ns > slot.Start.ns))
    (hspan : slot.End.ns - b.Start.ns < 9223372036854775808 ∧
      b.End.ns - slot.Start.ns < 9223372036854775808) :
    (b.End.ns ≤ slot.Start.ns ∨ slot.End.ns ≤ b.Start.ns) ∧
    (b.End.ns ≤ slot.Start.ns →
      0 ≤ slot.Start.ns - b.End.ns ∧
      ScoreSlot slot [b] - ScoreSlot slot [] = adjacencyByGap (slot.Start.ns - b.End.ns)) ∧
    (slot.End.ns ≤ b.Start.ns →
      0 ≤ b.Start.ns - slot.End.ns ∧
      ScoreSlot slot [b] - ScoreSlot slot [] = adjacencyByGap (b.Start.ns - slot.End.ns)) := by
  refine ⟨by omega, ?_, ?_⟩
  · intro h
    rw [ScoreSlot_single]
    exact ⟨by omega, adjacency_before slot b hb hslot h hspan.1⟩
  · intro h
    rw [ScoreSlot_single]
    exact ⟨by omega, adjacency_after slot b hb hslot h hspan.2⟩

/-- The slot 09:00-09:30 after a busy interval 08:00-08:50: the gap of 10
minutes adds 3. -/
theorem adjacency_contribution_by_gap_witness :
    (aug9 9 0).ns ≤ (aug9 9 30).ns ∧ (aug9 8 0).ns ≤ (aug9 8 50).ns ∧
    ¬ ((aug9 8 0).ns < (aug9 9 30).ns ∧ (aug9 8 50).ns > (aug9 9 0).ns) ∧
    ((aug9 9 30).ns - (aug9 8 0).ns < 9223372036854775808 ∧
      (aug9 8 50).ns - (aug9 9 0).ns < 9223372036854775808) ∧
    adjacencyByGap ((aug9 9 0).ns - (aug9 8 50).ns) = 3 ∧
    (((aug9 8 50).ns ≤ (aug9 9 0).ns ∨ (aug9 9 30).ns ≤ (aug9 8 0).ns) ∧
    ((aug9 8 50).ns ≤ (aug9 9 0).ns →
      0 ≤ (aug9 9 0).ns - (aug9 8 50).ns ∧
      ScoreSlot ⟨aug9 9 0, aug9 9 30⟩ [⟨aug9 8 0, aug9 8 50⟩] - ScoreSlot ⟨aug9 9 0, aug9 9 30⟩ [] =
        adjacencyByGap ((aug9 9 0).ns - (aug9 8 50).ns)) ∧
    ((aug9 9 30).ns ≤ (aug9 8 0).ns →
      0 ≤ (aug9 8 0).ns - (aug9 9 30).ns ∧
      ScoreSlot ⟨aug9 9 0, aug9 9 30⟩ [⟨aug9 8 0, aug9 8 50⟩] - ScoreSlot ⟨aug9 9 0, aug9 9 30⟩ [] =
        adjacencyByGap ((aug9 8 0).ns - (aug9 9 30).ns))) :=
  ⟨by decide, by decide, by decide, by decide, rfl,
    adjacency_contribution_by_gap ⟨aug9 9 0, aug9 9 30⟩ ⟨aug9 8 0, aug9 8 50⟩
      (by decide) (by decide) (by decide) (by decide)⟩

/-- C10 (as stated, refuted): no slot and busy interval, both with
`End >= Start`, make both small-gap checks add 1, and none makes the interval
contribute 4 to `ScoreSlot`. -/
theorem no_interval_contributes_four :
    (¬ ∃ slot b : Slot, slot.Start.ns ≤ slot.End.ns ∧ b.Start.ns ≤ b.End.ns ∧
      gapPenalty slot b = 2) ∧
    (¬ ∃ slot b : Slot, slot.Start.ns ≤ slot.End.ns ∧ b.Start.ns ≤ b.End.ns ∧
      ScoreSlot slot [b] - ScoreSlot slot [] = 4) := by
  constructor
  · rintro ⟨slot, b, hslot, hb, h⟩
    have := gapPenalty_le_one slot b hb hslot
    omega
  · rintro ⟨slot, b, hslot, hb, h⟩
    rw [ScoreSlot_single] at h
    have h1 := gapPenalty_le_one slot b hb hslot
    have h2 := bufferPenalty_le_two slot b
    omega

/-- C10 (amended): for every slot and busy interval with `End >= Start`, the
gap before and the gap after are never both strictly between 0 and 30 minutes,
so the small-gap check adds at most 1 and the interval contributes at most 3 to
`ScoreSlot` (2 for the buffer, 1 for the small gap). -/
theorem one_interval_contributes_at_most_three (slot b : Slot)
    (hslot : slot.Start.ns ≤ slot.End.ns) (hb : b.Start.ns ≤ b.End.ns) :
    ¬ ((slot.Start.Sub b.End > 0 ∧ slot.Start.Sub b.End < 30 * Minute) ∧
        (b.Start.Sub slot.End > 0 ∧ b.Start.Sub slot.End < 30 * Minute)) ∧
    gapPenalty slot b ≤ 1 ∧
    ScoreSlot slot [b] - ScoreSlot slot [] ≤ 3 := by
  refine ⟨gaps_not_both slot b hb hslot, gapPenalty_le_one slot b hb hslot, ?_⟩
  rw [ScoreSlot_single]
  have h1 := gapPenalty_le_one slot b hb hslot
  have h2 := bufferPenalty_le_two slot b
  omega

/-- The bound 3 is reached by the slot 09:00-09:30 after a busy interval
08:00-08:50; the inverted interval from 09:40 back to 08:50 contributes 4. -/
theorem one_interval_contributes_at_most_three_witness :
    (aug9 9 0).ns ≤ (aug9 9 30).ns ∧ (aug9 8 0).ns ≤ (aug9 8 50).ns ∧
    ScoreSlot ⟨aug9 9 0, aug9 9 30⟩ [⟨aug9 8 0, aug9 8 50⟩] - ScoreSlot ⟨aug9 9 0, aug9 9 30⟩ [] = 3 ∧
    ScoreSlot ⟨aug9 9 0, aug9 9 30⟩ [⟨aug9 9 40, aug9 8 50⟩] - ScoreSlot ⟨aug9 9 0, aug9 9 30⟩ [] = 4 ∧
    (¬ (((aug9 9 0).Sub (aug9 8 50) > 0 ∧ (aug9 9 0).Sub (aug9 8 50) < 30 * Minute) ∧
        ((aug9 8 0).Sub (aug9 9 30) > 0 ∧ (aug9 8 0).Sub (aug9 9 30) < 30 * Minute)) ∧
    gapPenalty ⟨aug9 9 0, aug9 9 30⟩ ⟨aug9 8 0, aug9 8 50⟩ ≤ 1 ∧
    ScoreSlot ⟨aug9 9 0, aug9 9 30⟩ [⟨aug9 8 0, aug9 8 50⟩] - ScoreSlot ⟨aug9 9 0, aug9 9 30⟩ [] ≤ 3) :=
  ⟨by decide, by decide, rfl, rfl,
    one_interval_contributes_at_most_three ⟨aug9 9 0, aug9 9 30⟩ ⟨aug9 8 0, aug9 8 50⟩
      (by decide) (by decide)⟩

/-- C11 (as stated, refuted): `u1` is busy 08:30-09:00 and the window 09:00-10:00
starts where that interval ends; the interval does not overlap the window and
is not loaded, the candidate 09:00-10:00 survives with total score 0, below its
hour penalty 1 plus the buffer penalty 2.  And when the overlap query fails, the
interval 00:00-00:30 of `u1` inside the window is not loaded either: the
candidate 00:30-01:00 that starts at its end gets 0. -/
theorem touching_interval_before_window_ignored :
    storeEarly.events = [⟨1, "event1", "u1", "Breakfast Briefing", aug9 8 30, aug9 9 0⟩] ∧
    windowStart parseAug9 requestNine = aug9 9 0 ∧
    requestEventMap parseAug9 storeEarly requestNine = [] ∧
    survivors parseAug9 storeEarly requestNine = [⟨aug9 9 0, aug9 10 0⟩] ∧
    totalScore (requestEventMap parseAug9 storeEarly requestNine) ⟨aug9 9 0, aug9 10 0⟩ = 0 ∧
    hourBucket (aug9 9 0).Hour + 2 = 3 ∧
    Slot.mk (aug9 0 30) (aug9 1 0) ∈
      survivors parseAug9 { storeMidnight with up := false } requestNight ∧
    totalScore (requestEventMap parseAug9 { storeMidnight with up := false } requestNight)
      ⟨aug9 0 30, aug9 1 0⟩ = 0 :=
  ⟨rfl, rfl, rfl, rfl, rfl, rfl, by decide, rfl⟩

/-- C11 (amended): if a participant of the request has a stored busy interval
that overlaps the window (`Start < windowEnd` and `End > windowStart`, the store
answering) and ends exactly at the start of a candidate, the total score that
`ScheduleEvent` gives the candidate is at least its hour penalty plus 2. -/
theorem touching_loaded_interval_gets_buffer_penalty (parse : String → Option Time) (db : DB)
    (req : ScheduleRequest) (p : String) (e : Event) (slot : Slot)
    (hp : p ∈ req.ParticipantIds) (hup : db.up = true) (he : e ∈ db.events)
    (huser : e.UserID = p)
    (hstart : e.StartTime.ns < (windowEnd parse req).ns)
    (hend : e.EndTime.ns > (windowStart parse req).ns)
    (htouch : e.EndTime.ns = slot.Start.ns) :
    hourBucket slot.Start.Hour + 2 ≤ totalScore (requestEventMap parse db req) slot := by
  have hfind : e ∈ db.FindOverlapping p (windowEnd parse req) (windowStart parse req) :=
    (mem_FindOverlapping _ _ _ _ _).2 ⟨hup, he, huser, hstart, hend⟩
  have hholds : (requestEventMap parse db req).Holds p ⟨e.StartTime, e.EndTime⟩ :=
    (loadEventMap_holds _ _ _ _ _ _).2 ⟨hp, e, hfind, rfl⟩
  obtain ⟨entry, hentry, _, hb⟩ := hholds
  have h1 := totalScore_ge (requestEventMap parse db req) slot entry hentry
  have h2 := ScoreSlot_ge slot entry.2 ⟨e.StartTime, e.EndTime⟩ hb
  have h3 := bufferPenalty_touching slot ⟨e.StartTime, e.EndTime⟩ htouch
  omega

/-- The night request: `u1` is busy 00:00-00:30 inside the window 00:00-07:00, and
the candidate 00:30-01:00 gets 6, its hour penalty 4 plus the buffer penalty 2. -/
theorem touching_loaded_interval_gets_buffer_penalty_witness :
    "u1" ∈ requestNight.ParticipantIds ∧ storeMidnight.up = true ∧
    (⟨1, "event1", "u1", "Night Shift Handover", aug9 0 0, aug9 0 30⟩ : Event) ∈
      storeMidnight.events ∧
    (aug9 0 0).ns < (windowEnd parseAug9 requestNight).ns ∧
    (aug9 0 30).ns > (windowStart parseAug9 requestNight).ns ∧
    Slot.mk (aug9 0 30) (aug9 1 0) ∈ survivors parseAug9 storeMidnight requestNight ∧
    totalScore (requestEventMap parseAug9 storeMidnight requestNight) ⟨aug9 0 30, aug9 1 0⟩ = 6 ∧
    hourBucket (aug9 0 30).Hour + 2 ≤
      totalScore (requestEventMap parseAug9 storeMidnight requestNight) ⟨aug9 0 30, aug9 1 0⟩ :=
  ⟨by decide, rfl, by decide, by decide, by decide, by decide, rfl,
    touching_loaded_interval_gets_buffer_penalty parseAug9 storeMidnight requestNight "u1"
      ⟨1, "event1", "u1", "Night Shift Handover", aug9 0 0, aug9 0 30⟩ ⟨aug9 0 30, aug9 1 0⟩
      (by decide) rfl (by decide) rfl (by decide) (by decide) rfl⟩

/-- C12: `ScoreSlot` adds the adjacency penalties once per busy interval:
`ScoreSlot(slot, xs ++ ys) + ScoreSlot(slot, []) = ScoreSlot(slot, xs) +
ScoreSlot(slot, ys)`, and the score is the same for every rearrangement of the
busy intervals. -/
theorem score_additive_over_intervals (slot : Slot) :
    (∀ xs ys : List Slot,
      ScoreSlot slot (xs ++ ys) + ScoreSlot slot [] = ScoreSlot slot xs + ScoreSlot slot ys) ∧
    (∀ xs ys : List Slot, xs.Perm ys → ScoreSlot slot xs = ScoreSlot slot ys) := by
  constructor
  · intro xs ys
    simp only [ScoreSlot_eq_sum, List.map_append, List.sum_append, List.map_nil, List.sum_nil]
    ring
  · intro xs ys hperm
    rw [ScoreSlot_eq_sum, ScoreSlot_eq_sum, (hperm.map (bufferPenalty slot)).sum_eq,
      (hperm.map (gapPenalty slot)).sum_eq]

/-- C13 (evaluation at the failing input): for the request without participants
`ScheduleEvent` returns a scheduled meeting 09:00-10:00 and no error; the store
is left as it was. -/
theorem empty_participants_scheduled :
    requestNobody.ParticipantIds = [] ∧
    ScheduleEvent parseAug9 insertionSort "20250809120000" storeOneEvent requestNobody =
      (Except.ok ⟨"meeting-20250809120000", "New Meeting", [], aug9 9 0, aug9 10 0⟩,
        storeOneEvent) :=
  ⟨rfl, rfl⟩

/-- C14 (evaluation at the failing inputs): for 0 minutes `ScheduleEvent` books
the empty interval 09:00-09:00 for `u2`, and for -30 minutes it books the
interval from 09:00 back to 08:30, whose end is before its start. -/
theorem non_positive_duration_booked :
    requestZero.DurationMinutes = 0 ∧
    ScheduleEvent parseAug9 insertionSort "20250809120000" storeOneEvent requestZero =
      (Except.ok ⟨"meeting-20250809120000", "New Meeting", ["u2"], aug9 9 0, aug9 9 0⟩,
        ⟨[⟨1, "event1", "u1", "Team Standup", aug9 10 0, aug9 10 30⟩,
          ⟨2, "meeting-20250809120000-u2", "u2", "New Meeting", aug9 9 0, aug9 9 0⟩], 3, true, usersTable, true⟩) ∧
    requestNegative.DurationMinutes = -30 ∧
    ScheduleEvent parseAug9 insertionSort "20250809120000" storeOneEvent requestNegative =
      (Except.ok ⟨"meeting-20250809120000", "New Meeting", ["u2"], aug9 9 0, aug9 8 30⟩,
        ⟨[⟨1, "event1", "u1", "Team Standup", aug9 10 0, aug9 10 30⟩,
          ⟨2, "meeting-20250809120000-u2", "u2", "New Meeting", aug9 9 0, aug9 8 30⟩], 3, true, usersTable, true⟩) ∧
    ¬ (aug9 8 30).ns > (aug9 9 0).ns :=
  ⟨rfl, rfl, rfl, rfl, by decide⟩

/-- C15 (as stated, refuted): `u1` is busy 09:00-10:00, the whole window, and the
positive number of minutes `2^53` gives the slot duration 0 in 64 bits: the
empty candidate 09:00-09:00 does not conflict, and `ScheduleEvent` books it.  And
when the overlap query fails the busy interval is not loaded: the request for 60
minutes gets 09:00-10:00. -/
theorem covered_window_booked_on_overflow :
    SortsByScore insertionSort ∧
    storeFullHour.events = [⟨1, "event1", "u1", "Design Meeting", aug9 9 0, aug9 10 0⟩] ∧
    windowStart parseAug9 requestWrapZero = aug9 9 0 ∧
    windowEnd parseAug9 requestWrapZero = aug9 10 0 ∧
    0 < requestWrapZero.DurationMinutes ∧
    slotDurationOf requestWrapZero = 0 ∧
    (ScheduleEvent parseAug9 insertionSort "20250809120000" storeFullHour requestWrapZero).1 =
      Except.ok ⟨"meeting-20250809120000", "New Meeting", ["u1"], aug9 9 0, aug9 9 0⟩ ∧
    (ScheduleEvent parseAug9 insertionSort "20250809120000" { storeFullHour with up := false }
        requestNine).1 =
      Except.ok ⟨"meeting-20250809120000", "New Meeting", ["u1"], aug9 9 0, aug9 10 0⟩ :=
  ⟨insertionSort_sortsByScore, rfl, rfl, rfl, by decide, rfl, rfl, rfl⟩

/-- C15 (amended): for a window with `windowStart < windowEnd` and a positive
number of minutes that fits a `time.Duration` (at most 153722867), if a
participant of the request has a stored busy interval covering the whole
window, the store answering, `ScheduleEvent` returns the no-slot error and
leaves the store as it was. -/
theorem covered_window_has_no_slot (parse : String → Option Time)
    (sortSlice : List scoredSlot → List scoredSlot) (now : String) (db : DB)
    (req : ScheduleRequest) (p : String) (e : Event)
    (hwindow : (windowStart parse req).ns < (windowEnd parse req).ns)
    (hpos : 0 < req.DurationMinutes) (hfit : req.DurationMinutes ≤ 153722867)
    (hp : p ∈ req.ParticipantIds) (hup : db.up = true) (he : e ∈ db.events)
    (huser : e.UserID = p)
    (hstart : e.StartTime.ns ≤ (windowStart parse req).ns)
    (hend : e.EndTime.ns ≥ (windowEnd parse req).ns) :
    ScheduleEvent parse sortSlice now db req =
      (Except.error "no available time slot found for all participants", db) := by
  apply ScheduleEvent_no_survivor
  have hfind : e ∈ db.FindOverlapping p (windowEnd parse req) (windowStart parse req) :=
    (mem_FindOverlapping _ _ _ _ _).2 ⟨hup, he, huser, by omega, by omega⟩
  obtain ⟨entry, hentry, _, hb⟩ : (requestEventMap parse db req).Holds p ⟨e.StartTime, e.EndTime⟩ :=
    (loadEventMap_holds _ _ _ _ _ _).2 ⟨hp, e, hfind, rfl⟩
  have hd : slotDurationOf req = req.DurationMinutes * Minute :=
    wrap64_minutes req.DurationMinutes hpos hfit
  have hdpos : (0 : Int) < slotDurationOf req := by
    rw [hd]
    unfold Duration
    simp only [Minute]
    omega
  unfold survivors
  apply candidateSlots_eq_nil_of_conflict
  intro k hk
  cases hv : slotValid (requestEventMap parse db req) ((windowStart parse req).stepped k)
      (((windowStart parse req).stepped k).Add (slotDurationOf req)) with
  | false => rfl
  | true =>
    have hfree := (slotValid_iff _ _ _).1 hv entry hentry ⟨e.StartTime, e.EndTime⟩ hb
    have hns := stepped_ns (windowStart parse req) k
    have hk0 : (0 : Int) ≤ (k : Int) * (30 * Minute) := by
      simp only [Minute]; positivity
    simp only [Time.Add] at hfree
    exact absurd ⟨by omega, by omega⟩ hfree

/-- The spec's scenario: window 09:00-10:00, 60 minutes, `u1` busy 09:00-10:00. -/
theorem covered_window_has_no_slot_witness :
    (windowStart parseAug9 requestNine).ns < (windowEnd parseAug9 requestNine).ns ∧
    0 < requestNine.DurationMinutes ∧ requestNine.DurationMinutes ≤ 153722867 ∧
    "u1" ∈ requestNine.ParticipantIds ∧ storeFullHour.up = true ∧
    (⟨1, "event1", "u1", "Design Meeting", aug9 9 0, aug9 10 0⟩ : Event) ∈ storeFullHour.events ∧
    (aug9 9 0).ns ≤ (windowStart parseAug9 requestNine).ns ∧
    (aug9 10 0).ns ≥ (windowEnd parseAug9 requestNine).ns ∧
    ScheduleEvent parseAug9 insertionSort "20250809120000" storeFullHour requestNine =
      (Except.error "no available time slot found for all participants", storeFullHour) :=
  ⟨by decide, by decide, by decide, by decide, rfl, by decide, by decide, by decide,
    covered_window_has_no_slot parseAug9 insertionSort "20250809120000" storeFullHour requestNine
      "u1" ⟨1, "event1", "u1", "Design Meeting", aug9 9 0, aug9 10 0⟩
      (by decide) (by decide) (by decide) (by decide) rfl (by decide) rfl (by decide)
      (by decide)⟩

/-- C16 (as stated, refuted): the store already holds an event with the code
`meeting-20250809120000-u1`; the call at the same clock reading for `u1`
succeeds, and the store is left as it was, without an event for `u1` at the
chosen slot 09:00-10:00.  The same happens for the participant `u9`, who has no
row in the users table, and for `u1` and `u2` when the store accepts no
insert. -/
theorem booking_lost_on_code_clash :
    requestNine.ParticipantIds.Nodup ∧
    ScheduleEvent parseAug9 insertionSort "20250809120000" storeSameSecond requestNine =
      (Except.ok ⟨"meeting-20250809120000", "New Meeting", ["u1"], aug9 9 0, aug9 10 0⟩,
        storeSameSecond) ∧
    requestStranger.ParticipantIds.Nodup ∧
    ScheduleEvent parseAug9 insertionSort "20250809120000" storeOneEvent requestStranger =
      (Except.ok ⟨"meeting-20250809120000", "New Meeting", ["u9"], aug9 9 0, aug9 10 0⟩,
        storeOneEvent) ∧
    requestDay.ParticipantIds.Nodup ∧
    ScheduleEvent parseAug9 insertionSort "20250809120000"
        { storeTwoUsers with writable := false } requestDay =
      (Except.ok ⟨"meeting-20250809120000", "New Meeting", ["u1", "u2"], aug9 9 0, aug9 10 0⟩,
        { storeTwoUsers with writable := false }) :=
  ⟨by decide, rfl, by decide, rfl, by decide, rfl⟩

/-- C16 (amended): on success, for a request with pairwise distinct participant
ids, on a store that accepts inserts, has a row in the users table for every
participant, and holds no event whose code is the meeting id followed by "-"
and a participant id, `ScheduleEvent` appends to the store one event per
participant, in order, and changes no stored event; each new event has the
times of the chosen slot, and the code made of the response's meeting id
(`"meeting-"` and the clock reading), "-" and its user id; the new codes are
pairwise distinct. -/
theorem booking_adds_one_event_per_participant (parse : String → Option Time)
    (sortSlice : List scoredSlot → List scoredSlot) (now : String) (db : DB)
    (req : ScheduleRequest) (resp : ScheduledMeetingResponse)
    (hok : (ScheduleEvent parse sortSlice now db req).1 = Except.ok resp)
    (hnodup : req.ParticipantIds.Nodup) (hwritable : db.writable = true)
    (husers : ∀ p ∈ req.ParticipantIds, ∃ u ∈ db.users, u.UserCode = p)
    (hfresh : ∀ p ∈ req.ParticipantIds, ∀ x ∈ db.events,
      x.EventCode ≠ resp.MeetingID ++ "-" ++ p) :
    resp.MeetingID = "meeting-" ++ now ∧
    ∃ added : List Event,
      (ScheduleEvent parse sortSlice now db req).2.events = db.events ++ added ∧
      added.map Event.UserID = req.ParticipantIds ∧
      (∀ x ∈ added, x.StartTime = resp.StartTime ∧ x.EndTime = resp.EndTime ∧
        x.EventCode = resp.MeetingID ++ "-" ++ x.UserID) ∧
      (added.map Event.EventCode).Nodup := by
  obtain ⟨hid, _, hstore⟩ := ScheduleEvent_ok_store parse sortSlice now db req resp hok
  refine ⟨hid, ?_⟩
  obtain ⟨added, h1, h2, h3⟩ := createEvents_fresh req.ParticipantIds resp.MeetingID resp.Title
    ⟨resp.StartTime, resp.EndTime⟩ db hwritable hnodup husers hfresh
  refine ⟨added, by rw [hstore]; exact h1, h2, fun x hx => ⟨(h3 x hx).1, (h3 x hx).2.1,
    (h3 x hx).2.2.2⟩, ?_⟩
  have hcodes : added.map Event.EventCode =
      (added.map Event.UserID).map (fun u => resp.MeetingID ++ "-" ++ u) := by
    rw [List.map_map]
    apply List.map_congr_left
    intro x hx
    exact (h3 x hx).2.2.2
  rw [hcodes, h2]
  exact List.Nodup.map (fun a b hab => string_append_cancel _ _ _ hab) hnodup

/-- The day request for `u1` and `u2`: two events 09:00-10:00 are appended. -/
theorem booking_adds_one_event_per_participant_witness :
    (ScheduleEvent parseAug9 insertionSort "20250809120000" storeTwoUsers requestDay).1 =
      Except.ok ⟨"meeting-20250809120000", "New Meeting", ["u1", "u2"], aug9 9 0, aug9 10 0⟩ ∧
    requestDay.ParticipantIds.Nodup ∧ storeTwoUsers.writable = true ∧
    (∀ p ∈ requestDay.ParticipantIds, ∃ u ∈ storeTwoUsers.users, u.UserCode = p) ∧
    (∀ p ∈ requestDay.ParticipantIds, ∀ x ∈ storeTwoUsers.events,
      x.EventCode ≠ "meeting-20250809120000" ++ "-" ++ p) ∧
    (ScheduleEvent parseAug9 insertionSort "20250809120000" storeTwoUsers requestDay).2.events =
      storeTwoUsers.events ++
        [⟨3, "meeting-20250809120000-u1", "u1", "New Meeting", aug9 9 0, aug9 10 0⟩,
          ⟨4, "meeting-20250809120000-u2", "u2", "New Meeting", aug9 9 0, aug9 10 0⟩] ∧
    ("meeting-20250809120000" = "meeting-" ++ "20250809120000" ∧
    ∃ added : List Event,
      (ScheduleEvent parseAug9 insertionSort "20250809120000" storeTwoUsers requestDay).2.events =
        storeTwoUsers.events ++ added ∧
      added.map Event.UserID = requestDay.ParticipantIds ∧
      (∀ x ∈ added, x.StartTime = aug9 9 0 ∧ x.EndTime = aug9 10 0 ∧
        x.EventCode = "meeting-20250809120000" ++ "-" ++ x.UserID) ∧
      (added.map Event.EventCode).Nodup) :=
  ⟨rfl, by decide, rfl, by decide, by decide, rfl,
    booking_adds_one_event_per_participant parseAug9 insertionSort "20250809120000"
      storeTwoUsers requestDay
      ⟨"meeting-20250809120000", "New Meeting", ["u1", "u2"], aug9 9 0, aug9 10 0⟩
      rfl (by decide) rfl (by decide) (by decide)⟩

/-- C17 (as stated, refuted): after the successful call for `u1` on the store
that already holds the code of the new event, the calendar of `u1` over the
window 09:00-10:00 of the booked slot is empty, and the calendar without window
holds only the old event 13:00-14:00.  After the successful call for `u9`, who
has no row in the users table, the calendar of `u9` is empty.  And after the
successful call on the store that answers no query, the calendar query fails. -/
theorem booked_slot_missing_from_calendar :
    (ScheduleEvent parseAug9 insertionSort "20250809120000" storeSameSecond requestNine).1 =
      Except.ok ⟨"meeting-20250809120000", "New Meeting", ["u1"], aug9 9 0, aug9 10 0⟩ ∧
    0 < requestNine.DurationMinutes ∧
    GetCalendarEvents parseAug9
      (ScheduleEvent parseAug9 insertionSort "20250809120000" storeSameSecond requestNine).2
      "u1" "2025-08-09T09:00:00Z" "2025-08-09T10:00:00Z" = Except.ok [] ∧
    GetCalendarEvents parseAug9
      (ScheduleEvent parseAug9 insertionSort "20250809120000" storeSameSecond requestNine).2
      "u1" "" "" =
      Except.ok [⟨1, "meeting-20250809120000-u1", "u1", "New Meeting", aug9 13 0, aug9 14 0⟩] ∧
    (ScheduleEvent parseAug9 insertionSort "20250809120000" storeOneEvent requestStranger).1 =
      Except.ok ⟨"meeting-20250809120000", "New Meeting", ["u9"], aug9 9 0, aug9 10 0⟩ ∧
    0 < requestStranger.DurationMinutes ∧
    GetCalendarEvents parseAug9
      (ScheduleEvent parseAug9 insertionSort "20250809120000" storeOneEvent requestStranger).2
      "u9" "2025-08-09T09:00:00Z" "2025-08-09T10:00:00Z" = Except.ok [] ∧
    GetCalendarEvents parseAug9
      (ScheduleEvent parseAug9 insertionSort "20250809120000" storeOneEvent requestStranger).2
      "u9" "" "" = Except.ok [] ∧
    (ScheduleEvent parseAug9 insertionSort "20250809120000" { storeFullHour with up := false }
        requestNine).1 =
      Except.ok ⟨"meeting-20250809120000", "New Meeting", ["u1"], aug9 9 0, aug9 10 0⟩ ∧
    GetCalendarEvents parseAug9
      (ScheduleEvent parseAug9 insertionSort "20250809120000"
        { storeFullHour with up := false } requestNine).2
      "u1" "2025-08-09T09:00:00Z" "2025-08-09T10:00:00Z" = Except.error storeError :=
  ⟨rfl, by decide, rfl, rfl, rfl, by decide, rfl, rfl, rfl, rfl⟩

/-- C17 (amended): after a successful `ScheduleEvent` with a positive number of
minutes that fits a `time.Duration`, on a store that answers the queries and
accepts inserts, for every participant p of the request who has a row in the
users table and whose event code (meeting id, "-", p) is not yet in the store,
and every query window `[s, e]` given by two parseable strings with `s <= chosen.Start` and `chosen.End <= e`, `GetCalendarEvents`
returns an event of p whose times are those of the booked slot; the same
holds when both endpoints are empty. -/
theorem calendar_returns_booked_slot (parse : String → Option Time)
    (sortSlice : List scoredSlot → List scoredSlot) (now : String) (db : DB)
    (req : ScheduleRequest) (resp : ScheduledMeetingResponse) (p start end_ : String)
    (s e : Time)
    (hsort : SortsByScore sortSlice)
    (hok : (ScheduleEvent parse sortSlice now db req).1 = Except.ok resp)
    (hpos : 0 < req.DurationMinutes) (hfit : req.DurationMinutes ≤ 153722867)
    (hup : db.up = true) (hwritable : db.writable = true)
    (huser : ∃ u ∈ db.users, u.UserCode = p) (hp : p ∈ req.ParticipantIds)
    (hfresh : ∀ x ∈ db.events, x.EventCode ≠ resp.MeetingID ++ "-" ++ p)
    (hs : parse start = some s) (he : parse end_ = some e)
    (hsle : s.ns ≤ resp.StartTime.ns) (hele : resp.EndTime.ns ≤ e.ns) :
    (∃ events x,
      GetCalendarEvents parse (ScheduleEvent parse sortSlice now db req).2 p start end_ =
        Except.ok events ∧
      x ∈ events ∧ x.UserID = p ∧ x.StartTime = resp.StartTime ∧ x.EndTime = resp.EndTime) ∧
    (∃ events x,
      GetCalendarEvents parse (ScheduleEvent parse sortSlice now db req).2 p "" "" =
        Except.ok events ∧
      x ∈ events ∧ x.UserID = p ∧ x.StartTime = resp.StartTime ∧ x.EndTime = resp.EndTime) := by
  obtain ⟨_, _, hstore⟩ := ScheduleEvent_ok_store parse sortSlice now db req resp hok
  have hup' : (ScheduleEvent parse sortSlice now db req).2.up = true := by
    rw [hstore, createEvents_up]; exact hup
  obtain ⟨x, hx, hxu, hxs, hxe, _⟩ := createEvents_has req.ParticipantIds resp.MeetingID
    resp.Title ⟨resp.StartTime, resp.EndTime⟩ p db hwritable huser hp hfresh
  rw [← hstore] at hx
  simp only at hxs hxe
  have hmem := ScheduleEvent_ok_mem parse sortSlice now db req resp hsort hok
  obtain ⟨k, _, _, hslot⟩ := (mem_candidateSlots _ _ _ _ _).1 hmem
  have hd : slotDurationOf req = req.DurationMinutes * Minute :=
    wrap64_minutes req.DurationMinutes hpos hfit
  have hlen : resp.StartTime.ns < resp.EndTime.ns := by
    have h1 : resp.StartTime = (windowStart parse req).stepped k := congrArg Slot.Start hslot
    have h2 : resp.EndTime = ((windowStart parse req).stepped k).Add (slotDurationOf req) :=
      congrArg Slot.End hslot
    rw [h2, ← h1, hd]
    simp only [Time.Add, Minute]
    unfold Duration
    omega
  constructor
  · by_cases hopen : start = "" ∨ end_ = ""
    · refine ⟨_, x, GetCalendarEvents_all parse _ p start end_ hup' (Or.inr (by simp [hs]))
        (Or.inr (by simp [he])) (by simp only [hs, he, Option.getD_some]; omega) hopen, ?_,
        hxu, hxs, hxe⟩
      rw [mem_FindByUser]
      exact ⟨hup', hx, hxu⟩
    · refine ⟨_, x, GetCalendarEvents_window parse _ p start end_ s e hup' hs he (by omega)
        (fun h => hopen (Or.inl h)) (fun h => hopen (Or.inr h)), ?_, hxu, hxs, hxe⟩
      rw [mem_FindOverlapping]
      exact ⟨hup', hx, hxu, by rw [hxs]; omega, by rw [hxe]; omega⟩
  · refine ⟨_, x, GetCalendarEvents_all parse _ p "" "" hup' (Or.inl rfl) (Or.inl rfl)
      (by omega) (Or.inl rfl), ?_, hxu, hxs, hxe⟩
    rw [mem_FindByUser]
    exact ⟨hup', hx, hxu⟩

/-- The morning request: the booked slot 09:00-10:00 of `u1` is returned for the
window 08:00-11:00 and for no window. -/
theorem calendar_returns_booked_slot_witness :
    SortsByScore insertionSort ∧
    (ScheduleEvent parseAug9 insertionSort "20250809120000" storeOneEvent requestMorning).1 =
      Except.ok ⟨"meeting-20250809120000", "New Meeting", ["u1"], aug9 9 0, aug9 10 0⟩ ∧
    0 < requestMorning.DurationMinutes ∧ requestMorning.DurationMinutes ≤ 153722867 ∧
    storeOneEvent.up = true ∧ storeOneEvent.writable = true ∧
    (∃ u ∈ storeOneEvent.users, u.UserCode = "u1") ∧ "u1" ∈ requestMorning.ParticipantIds ∧
    (∀ x ∈ storeOneEvent.events, x.EventCode ≠ "meeting-20250809120000" ++ "-" ++ "u1") ∧
    parseAug9 "2025-08-09T08:00:00Z" = some (aug9 8 0) ∧
    parseAug9 "2025-08-09T11:00:00Z" = some (aug9 11 0) ∧
    (aug9 8 0).ns ≤ (aug9 9 0).ns ∧ (aug9 10 0).ns ≤ (aug9 11 0).ns ∧
    GetCalendarEvents parseAug9
      (ScheduleEvent parseAug9 insertionSort "20250809120000" storeOneEvent requestMorning).2
      "u1" "2025-08-09T08:00:00Z" "2025-08-09T11:00:00Z" =
      Except.ok [⟨1, "event1", "u1", "Team Standup", aug9 10 0, aug9 10 30⟩,
        ⟨2, "meeting-20250809120000-u1", "u1", "New Meeting", aug9 9 0, aug9 10 0⟩] ∧
    ((∃ events x,
      GetCalendarEvents parseAug9
        (ScheduleEvent parseAug9 insertionSort "20250809120000" storeOneEvent requestMorning).2
        "u1" "2025-08-09T08:00:00Z" "2025-08-09T11:00:00Z" = Except.ok events ∧
      x ∈ events ∧ x.UserID = "u1" ∧ x.StartTime = aug9 9 0 ∧ x.EndTime = aug9 10 0) ∧
    (∃ events x,
      GetCalendarEvents parseAug9
        (ScheduleEvent parseAug9 insertionSort "20250809120000" storeOneEvent requestMorning).2
        "u1" "" "" = Except.ok events ∧
      x ∈ events ∧ x.UserID = "u1" ∧ x.StartTime = aug9 9 0 ∧ x.EndTime = aug9 10 0)) :=
  ⟨insertionSort_sortsByScore, rfl, by decide, by decide, rfl, rfl, by decide, by decide,
    by decide, rfl, rfl, by decide, by decide, rfl,
    calendar_returns_booked_slot parseAug9 insertionSort "20250809120000" storeOneEvent
      requestMorning ⟨"meeting-20250809120000", "New Meeting", ["u1"], aug9 9 0, aug9 10 0⟩
      "u1" "2025-08-09T08:00:00Z" "2025-08-09T11:00:00Z" (aug9 8 0) (aug9 11 0)
      insertionSort_sortsByScore rfl (by decide) (by decide) rfl rfl (by decide) (by decide)
      (by decide) rfl rfl (by decide) (by decide)⟩

/-- C18 (evaluation at the failing inputs): on the store that is down, where
the overlap query and the insert fail, `ScheduleEvent` returns a scheduled
meeting 08:00-09:00 and no error, and nothing is written; on the store where
the insert for `u1` fails on the unique code and the one for `u2` succeeds, it
returns a scheduled meeting too, with an event for `u2` alone. -/
theorem storage_failures_swallowed :
    storeDown.up = false ∧
    ScheduleEvent parseAug9 insertionSort "20250809120000" storeDown requestMorning =
      (Except.ok ⟨"meeting-20250809120000", "New Meeting", ["u1"], aug9 8 0, aug9 9 0⟩,
        storeDown) ∧
    GetCalendarEvents parseAug9 storeDown "u1" "" "" = Except.error storeError ∧
    ScheduleEvent parseAug9 insertionSort "20250809120000" storeSameSecond requestPair =
      (Except.ok ⟨"meeting-20250809120000", "New Meeting", ["u1", "u2"], aug9 9 0, aug9 10 0⟩,
        ⟨[⟨1, "meeting-20250809120000-u1", "u1", "New Meeting", aug9 13 0, aug9 14 0⟩,
          ⟨2, "meeting-20250809120000-u2", "u2", "New Meeting", aug9 9 0, aug9 10 0⟩], 3, true, usersTable, true⟩) :=
  ⟨rfl, rfl, rfl, rfl⟩

/-- C19 (as stated, refuted): the start 2025-08-09T09:00:00Z and the end
0001-01-01T00:00:00Z are both supplied and parseable and the start is after the
end, but the end is the zero time, which the range check takes for a missing
endpoint: `GetCalendarEvents` returns no error. -/
theorem zero_time_end_skips_range_check :
    parseWithZero "2025-08-09T09:00:00Z" = some (aug9 9 0) ∧
    parseWithZero "0001-01-01T00:00:00Z" = some Time.zero ∧
    (aug9 9 0).After Time.zero = true ∧
    GetCalendarEvents parseWithZero storeOneEvent "u1" "2025-08-09T09:00:00Z"
      "0001-01-01T00:00:00Z" = Except.ok [] :=
  ⟨rfl, rfl, rfl, rfl⟩

/-- C19 (amended): `GetCalendarEvents` fails with "invalid time range: start time
cannot be after end time" exactly when both endpoints are supplied, parse, are
both different from the zero time 0001-01-01T00:00:00Z, and the start is
strictly after the end; equal endpoints are accepted. -/
theorem time_range_error_iff (parse : String → Option Time) (db : DB)
    (userId start end_ : String) (hempty : parse "" = none) :
    GetCalendarEvents parse db userId start end_ =
        Except.error "invalid time range: start time cannot be after end time" ↔
      ∃ s e, start ≠ "" ∧ end_ ≠ "" ∧ parse start = some s ∧ parse end_ = some e ∧
        s.ns ≠ Time.zero.ns ∧ e.ns ≠ Time.zero.ns ∧ s.ns > e.ns := by
  rw [GetCalendarEvents_range_iff]
  constructor
  · rintro ⟨hA, hB, hC⟩
    simp only [Time.IsZero, Time.After, Bool.and_eq_true, Bool.not_eq_true',
      decide_eq_false_iff_not, decide_eq_true_eq] at hC
    obtain ⟨⟨hsz, hez⟩, hgt⟩ := hC
    cases hs : parse start with
    | none => rw [hs] at hsz; exact absurd rfl hsz
    | some s =>
      cases he : parse end_ with
      | none => rw [he] at hez; exact absurd rfl hez
      | some e =>
        rw [hs] at hsz hgt
        rw [he] at hez hgt
        have hstart : start ≠ "" := by
          intro h0; rw [h0, hempty] at hs; exact absurd hs (by simp)
        have hend : end_ ≠ "" := by
          intro h0; rw [h0, hempty] at he; exact absurd he (by simp)
        exact ⟨s, e, hstart, hend, rfl, rfl, hsz, hez, hgt⟩
  · rintro ⟨s, e, _, _, hs, he, hsz, hez, hgt⟩
    refine ⟨by simp [hs], by simp [he], ?_⟩
    simp only [hs, he, Option.getD_some, Time.IsZero, Time.After, Bool.and_eq_true,
      Bool.not_eq_true', decide_eq_false_iff_not, decide_eq_true_eq]
    exact ⟨⟨hsz, hez⟩, hgt⟩

/-- The start 10:00 after the end 09:00 is refused; the equal endpoints 10:00
and 10:00 are accepted. -/
theorem time_range_error_iff_witness :
    parseWithZero "" = none ∧
    GetCalendarEvents parseWithZero storeOneEvent "u1" "2025-08-09T10:00:00Z"
      "2025-08-09T09:00:00Z" =
      Except.error "invalid time range: start time cannot be after end time" ∧
    GetCalendarEvents parseWithZero storeOneEvent "u1" "2025-08-09T10:00:00Z"
      "2025-08-09T10:00:00Z" = Except.ok [] ∧
    (GetCalendarEvents parseWithZero storeOneEvent "u1" "2025-08-09T10:00:00Z"
        "2025-08-09T09:00:00Z" =
        Except.error "invalid time range: start time cannot be after end time" ↔
      ∃ s e, "2025-08-09T10:00:00Z" ≠ "" ∧ "2025-08-09T09:00:00Z" ≠ "" ∧
        parseWithZero "2025-08-09T10:00:00Z" = some s ∧
        parseWithZero "2025-08-09T09:00:00Z" = some e ∧
        s.ns ≠ Time.zero.ns ∧ e.ns ≠ Time.zero.ns ∧ s.ns > e.ns) :=
  ⟨rfl, rfl, rfl,
    time_range_error_iff parseWithZero storeOneEvent "u1" "2025-08-09T10:00:00Z"
      "2025-08-09T09:00:00Z" rfl⟩

/-- C20: `GetCalendarEvents` fails with "invalid start time format" exactly when
the start is non-empty and does not parse, and with "invalid end time format"
exactly when that is not the case and the end is non-empty and does not parse;
whatever the store and the order of the endpoints.  An empty endpoint is never
a format error. -/
theorem time_format_error_iff (parse : String → Option Time) (db : DB)
    (userId start end_ : String) :
    (GetCalendarEvents parse db userId start end_ = Except.error "invalid start time format" ↔
      (start ≠ "" ∧ parse start = none)) ∧
    (GetCalendarEvents parse db userId start end_ = Except.error "invalid end time format" ↔
      (¬ (start ≠ "" ∧ parse start = none) ∧ end_ ≠ "" ∧ parse end_ = none)) := by
  by_cases h1 : (parse start).isNone = true ∧ start ≠ ""
  · have hres : GetCalendarEvents parse db userId start end_ =
        Except.error "invalid start time format" := by
      simp only [GetCalendarEvents, if_pos h1]
    have hnone : parse start = none := Option.isNone_iff_eq_none.1 h1.1
    rw [hres]
    constructor
    · exact ⟨fun _ => ⟨h1.2, hnone⟩, fun _ => rfl⟩
    · constructor
      · intro h; simp at h
      · rintro ⟨h, _⟩; exact absurd ⟨h1.2, hnone⟩ h
  · have hA : ¬ (start ≠ "" ∧ parse start = none) := by
      rintro ⟨h, hn⟩
      exact h1 ⟨by rw [hn]; rfl, h⟩
    by_cases h2 : (parse end_).isNone = true ∧ end_ ≠ ""
    · have hres : GetCalendarEvents parse db userId start end_ =
          Except.error "invalid end time format" := by
        simp only [GetCalendarEvents, if_neg h1, if_pos h2]
      have hnone : parse end_ = none := Option.isNone_iff_eq_none.1 h2.1
      rw [hres]
      constructor
      · constructor
        · intro h; simp at h
        · intro h; exact absurd h hA
      · exact ⟨fun _ => ⟨hA, h2.2, hnone⟩, fun _ => rfl⟩
    · have hB : ¬ (end_ ≠ "" ∧ parse end_ = none) := by
        rintro ⟨h, hn⟩
        exact h2 ⟨by rw [hn]; rfl, h⟩
      have hres : GetCalendarEvents parse db userId start end_ ≠
            Except.error "invalid start time format" ∧
          GetCalendarEvents parse db userId start end_ ≠
            Except.error "invalid end time format" := by
        simp only [GetCalendarEvents, if_neg h1, if_neg h2]
        split
        · constructor <;> simp
        · split
          · split <;> constructor <;> simp
          · constructor <;> simp [storeError]
      constructor
      · exact ⟨fun h => absurd h hres.1, fun h => absurd h hA⟩
      · exact ⟨fun h => absurd h hres.2, fun h => absurd ⟨h.2.1, h.2.2⟩ hB⟩

/-- C21: on a store that answers, for every store content and participant id,
`GetCalendarEvents` with a window given by two non-empty parseable endpoints
with `start <= end` returns exactly the stored events e of the participant with
`e.StartTime < end` and `e.EndTime > start`, and with both endpoints empty it
returns all stored events of the participant; in both cases in the order of the
store. -/
theorem calendar_query_result (parse : String → Option Time) (db : DB)
    (userId start end_ : String) (s e : Time) (hup : db.up = true)
    (hstart : start ≠ "") (hend : end_ ≠ "")
    (hs : parse start = some s) (he : parse end_ = some e) (hse : s.ns ≤ e.ns) :
    GetCalendarEvents parse db userId start end_ =
      Except.ok (db.events.filter (fun x =>
        decide (x.UserID = userId) && decide (x.StartTime.ns < e.ns) &&
          decide (x.EndTime.ns > s.ns))) ∧
    (∀ x, x ∈ db.events.filter (fun x =>
        decide (x.UserID = userId) && decide (x.StartTime.ns < e.ns) &&
          decide (x.EndTime.ns > s.ns)) ↔
      (x ∈ db.events ∧ x.UserID = userId ∧ x.StartTime.ns < e.ns ∧ x.EndTime.ns > s.ns)) ∧
    GetCalendarEvents parse db userId "" "" =
      Except.ok (db.events.filter (fun x => decide (x.UserID = userId))) ∧
    (∀ x, x ∈ db.events.filter (fun x => decide (x.UserID = userId)) ↔
      (x ∈ db.events ∧ x.UserID = userId)) := by
  refine ⟨?_, ?_, ?_, ?_⟩
  · rw [GetCalendarEvents_window parse db userId start end_ s e hup hs he hse hstart hend]
    simp only [DB.FindOverlapping, if_pos hup, Time.Before, Time.After]
  · intro x
    simp [List.mem_filter, and_assoc]
  · rw [GetCalendarEvents_all parse db userId "" "" hup (Or.inl rfl) (Or.inl rfl) (by omega)
      (Or.inl rfl)]
    simp only [DB.FindByUser, if_pos hup]
  · intro x
    simp [List.mem_filter]

/-- The store with `u1` and `u2` busy 13:00-14:00: the window 09:00-17:00 returns
the event of `u1` and not that of `u2`; on the one-event store the window
09:00-10:00 leaves out the event 10:00-10:30, which only touches its end. -/
theorem calendar_query_result_witness :
    storeTwoUsers.up = true ∧
    "2025-08-09T09:00:00Z" ≠ "" ∧ "2025-08-09T17:00:00Z" ≠ "" ∧
    parseAug9 "2025-08-09T09:00:00Z" = some (aug9 9 0) ∧
    parseAug9 "2025-08-09T17:00:00Z" = some (aug9 17 0) ∧
    (aug9 9 0).ns ≤ (aug9 17 0).ns ∧
    GetCalendarEvents parseAug9 storeTwoUsers "u1" "2025-08-09T09:00:00Z"
        "2025-08-09T17:00:00Z" =
      Except.ok [⟨1, "event1", "u1", "Project Review", aug9 13 0, aug9 14 0⟩] ∧
    GetCalendarEvents parseAug9 storeOneEvent "u1" "2025-08-09T09:00:00Z"
        "2025-08-09T10:00:00Z" = Except.ok [] ∧
    (GetCalendarEvents parseAug9 storeTwoUsers "u1" "2025-08-09T09:00:00Z"
        "2025-08-09T17:00:00Z" =
      Except.ok (storeTwoUsers.events.filter (fun x =>
        decide (x.UserID = "u1") && decide (x.StartTime.ns < (aug9 17 0).ns) &&
          decide (x.EndTime.ns > (aug9 9 0).ns))) ∧
    (∀ x, x ∈ storeTwoUsers.events.filter (fun x =>
        decide (x.UserID = "u1") && decide (x.StartTime.ns < (aug9 17 0).ns) &&
          decide (x.EndTime.ns > (aug9 9 0).ns)) ↔
      (x ∈ storeTwoUsers.events ∧ x.UserID = "u1" ∧ x.StartTime.ns < (aug9 17 0).ns ∧
        x.EndTime.ns > (aug9 9 0).ns)) ∧
    GetCalendarEvents parseAug9 storeTwoUsers "u1" "" "" =
      Except.ok (storeTwoUsers.events.filter (fun x => decide (x.UserID = "u1"))) ∧
    (∀ x, x ∈ storeTwoUsers.events.filter (fun x => decide (x.UserID = "u1")) ↔
      (x ∈ storeTwoUsers.events ∧ x.UserID = "u1"))) :=
  ⟨rfl, by decide, by decide, rfl, rfl, by decide, rfl, rfl,
    calendar_query_result parseAug9 storeTwoUsers "u1" "2025-08-09T09:00:00Z"
      "2025-08-09T17:00:00Z" (aug9 9 0) (aug9 17 0) rfl (by decide) (by decide) rfl rfl
      (by decide)⟩

/-- C22: the conflict test of the engine, `conflicts(A, B) := B.Start < A.End AND
B.End > A.Start`, is the test that the filter of `ScheduleEvent` applies to a
candidate and a busy interval, and it is symmetric. -/
theorem conflicts_symmetric :
    (∀ a b : Slot, conflicts a b = decide (b.Start.ns < a.End.ns ∧ b.End.ns > a.Start.ns)) ∧
    (∀ (eventMap : EventMap) (t end_ : Time),
      slotValid eventMap t end_ =
        eventMap.all (fun entry => !(entry.2.any (fun ev => conflicts ⟨t, end_⟩ ev)))) ∧
    (∀ a b : Slot, conflicts a b = conflicts b a) := by
  refine ⟨?_, fun eventMap t end_ => slotValid_eq_conflicts eventMap t end_, ?_⟩
  · intro a b
    simp [conflicts, Time.Before, Time.After, Bool.decide_and]
  · intro a b
    rw [Bool.eq_iff_iff, conflicts_iff, conflicts_iff]
    constructor <;> (rintro ⟨h1, h2⟩; exact ⟨h2, h1⟩)

/-- C23: the conflict test reports no conflict whenever `A.End <= B.Start` or
`B.End <= A.Start`; a candidate that starts exactly when a busy interval ends, or
ends exactly when one starts, passes the filter against a map that holds this
interval alone, and in general whenever it passes against the other intervals. -/
theorem no_conflict_on_boundary_touch :
    (∀ a b : Slot, (a.End.ns ≤ b.Start.ns ∨ b.End.ns ≤ a.Start.ns) → conflicts a b = false) ∧
    (∀ (userId : String) (t end_ : Time) (b : Slot),
      (b.End.ns = t.ns ∨ end_.ns = b.Start.ns) → slotValid [(userId, [b])] t end_ = true) ∧
    (∀ (userId : String) (events : List Slot) (eventMap : EventMap) (t end_ : Time) (b : Slot),
      (b.End.ns = t.ns ∨ end_.ns = b.Start.ns) →
      slotValid ((userId, b :: events) :: eventMap) t end_ =
        slotValid ((userId, events) :: eventMap) t end_) := by
  have hfree : ∀ a b : Slot, (a.End.ns ≤ b.Start.ns ∨ b.End.ns ≤ a.Start.ns) →
      conflicts a b = false := by
    intro a b h
    rw [Bool.eq_false_iff]
    intro hc
    rw [conflicts_iff] at hc
    omega
  refine ⟨hfree, ?_, ?_⟩
  · intro userId t end_ b h
    have hb : conflicts ⟨t, end_⟩ b = false := hfree ⟨t, end_⟩ b (by
      rcases h with h | h
      · exact Or.inr (le_of_eq h)
      · exact Or.inl (le_of_eq h))
    rw [slotValid_eq_conflicts]
    simp [hb]
  · intro userId events eventMap t end_ b h
    have hb : conflicts ⟨t, end_⟩ b = false := hfree ⟨t, end_⟩ b (by
      rcases h with h | h
      · exact Or.inr (le_of_eq h)
      · exact Or.inl (le_of_eq h))
    rw [slotValid_eq_conflicts, slotValid_eq_conflicts]
    simp [hb]

/-- C24: `ScheduleEvent` is a function of the request, the store and the clock
reading, and it does not depend on the order in which the loops visit the
entries of `eventMap` nor on the order of the intervals inside an entry: for a
rearranged map the conflict filter keeps the same candidates, every candidate
gets the same total score, and the outcome (chosen slot, response, store) is the
same. -/
theorem schedule_independent_of_visit_order
    (sortSlice : List scoredSlot → List scoredSlot) (now : String) (db : DB)
    (req : ScheduleRequest) (startTime endTime : Time) (slotDuration : Duration)
    (eventMap eventMap' : EventMap) (h : eventMap.Rearranged eventMap') :
    (∀ parse : String → Option Time,
      ScheduleEvent parse sortSlice now db req =
        ScheduleEventFrom sortSlice now db req (windowStart parse req) (windowEnd parse req)
          (slotDurationOf req) (requestEventMap parse db req)) ∧
    (∀ t end_ : Time, slotValid eventMap' t end_ = slotValid eventMap t end_) ∧
    candidateSlots eventMap' startTime endTime slotDuration =
      candidateSlots eventMap startTime endTime slotDuration ∧
    (∀ slot : Slot, totalScore eventMap' slot = totalScore eventMap slot) ∧
    (∀ cands : List Slot, scoreSlots eventMap' cands = scoreSlots eventMap cands) ∧
    ScheduleEventFrom sortSlice now db req startTime endTime slotDuration eventMap' =
      ScheduleEventFrom sortSlice now db req startTime endTime slotDuration eventMap := by
  have hvalid := slotValid_rearranged eventMap eventMap' h
  have hscore := totalScore_rearranged eventMap eventMap' h
  have hcands : candidateSlots eventMap' startTime endTime slotDuration =
      candidateSlots eventMap startTime endTime slotDuration := by
    unfold candidateSlots
    exact candidateLoop_congr eventMap eventMap' hvalid endTime slotDuration _ _
  have hslots := scoreSlots_congr eventMap eventMap' hscore
  refine ⟨fun parse => ScheduleEvent_eq_from parse sortSlice now db req, hvalid, hcands, hscore,
    hslots, ?_⟩
  unfold ScheduleEventFrom
  simp only [hcands, hslots]

/-- The map of the day request, with its two entries exchanged: the same
outcome, with the scores of the candidates unchanged. -/
theorem schedule_independent_of_visit_order_witness :
    requestEventMap parseAug9 storeTwoUsers requestDay =
      [("u1", [⟨aug9 13 0, aug9 14 0⟩]), ("u2", [⟨aug9 13 0, aug9 14 0⟩])] ∧
    EventMap.Rearranged [("u1", [⟨aug9 13 0, aug9 14 0⟩]), ("u2", [⟨aug9 13 0, aug9 14 0⟩])]
      [("u2", [⟨aug9 13 0, aug9 14 0⟩]), ("u1", [⟨aug9 13 0, aug9 14 0⟩])] ∧
    ScheduleEventFrom insertionSort "20250809120000" storeTwoUsers requestDay (aug9 9 0)
        (aug9 17 0) (60 * Minute)
        [("u2", [⟨aug9 13 0, aug9 14 0⟩]), ("u1", [⟨aug9 13 0, aug9 14 0⟩])] =
      ScheduleEvent parseAug9 insertionSort "20250809120000" storeTwoUsers requestDay ∧
    ((∀ parse : String → Option Time,
      ScheduleEvent parse insertionSort "20250809120000" storeTwoUsers requestDay =
        ScheduleEventFrom insertionSort "20250809120000" storeTwoUsers requestDay
          (windowStart parse requestDay) (windowEnd parse requestDay)
          (slotDurationOf requestDay) (requestEventMap parse storeTwoUsers requestDay)) ∧
    (∀ t end_ : Time,
      slotValid [("u2", [⟨aug9 13 0, aug9 14 0⟩]), ("u1", [⟨aug9 13 0, aug9 14 0⟩])] t end_ =
        slotValid [("u1", [⟨aug9 13 0, aug9 14 0⟩]), ("u2", [⟨aug9 13 0, aug9 14 0⟩])] t end_) ∧
    candidateSlots [("u2", [⟨aug9 13 0, aug9 14 0⟩]), ("u1", [⟨aug9 13 0, aug9 14 0⟩])]
        (aug9 9 0) (aug9 17 0) (60 * Minute) =
      candidateSlots [("u1", [⟨aug9 13 0, aug9 14 0⟩]), ("u2", [⟨aug9 13 0, aug9 14 0⟩])]
        (aug9 9 0) (aug9 17 0) (60 * Minute) ∧
    (∀ slot : Slot,
      totalScore [("u2", [⟨aug9 13 0, aug9 14 0⟩]), ("u1", [⟨aug9 13 0, aug9 14 0⟩])] slot =
        totalScore [("u1", [⟨aug9 13 0, aug9 14 0⟩]), ("u2", [⟨aug9 13 0, aug9 14 0⟩])] slot) ∧
    (∀ cands : List Slot,
      scoreSlots [("u2", [⟨aug9 13 0, aug9 14 0⟩]), ("u1", [⟨aug9 13 0, aug9 14 0⟩])] cands =
        scoreSlots [("u1", [⟨aug9 13 0, aug9 14 0⟩]), ("u2", [⟨aug9 13 0, aug9 14 0⟩])] cands) ∧
    ScheduleEventFrom insertionSort "20250809120000" storeTwoUsers requestDay (aug9 9 0)
        (aug9 17 0) (60 * Minute)
        [("u2", [⟨aug9 13 0, aug9 14 0⟩]), ("u1", [⟨aug9 13 0, aug9 14 0⟩])] =
      ScheduleEventFrom insertionSort "20250809120000" storeTwoUsers requestDay (aug9 9 0)
        (aug9 17 0) (60 * Minute)
        [("u1", [⟨aug9 13 0, aug9 14 0⟩]), ("u2", [⟨aug9 13 0, aug9 14 0⟩])]) :=
  ⟨rfl,
    ⟨[("u2", [⟨aug9 13 0, aug9 14 0⟩]), ("u1", [⟨aug9 13 0, aug9 14 0⟩])],
      List.Perm.swap _ _ _,
      List.Forall₂.cons ⟨rfl, List.Perm.refl _⟩
        (List.Forall₂.cons ⟨rfl, List.Perm.refl _⟩ List.Forall₂.nil)⟩,
    rfl,
    schedule_independent_of_visit_order insertionSort "20250809120000" storeTwoUsers requestDay
      (aug9 9 0) (aug9 17 0) (60 * Minute)
      [("u1", [⟨aug9 13 0, aug9 14 0⟩]), ("u2", [⟨aug9 13 0, aug9 14 0⟩])]
      [("u2", [⟨aug9 13 0, aug9 14 0⟩]), ("u1", [⟨aug9 13 0, aug9 14 0⟩])]
      ⟨[("u2", [⟨aug9 13 0, aug9 14 0⟩]), ("u1", [⟨aug9 13 0, aug9 14 0⟩])],
        List.Perm.swap _ _ _,
        List.Forall₂.cons ⟨rfl, List.Perm.refl _⟩
          (List.Forall₂.cons ⟨rfl, List.Perm.refl _⟩ List.Forall₂.nil)⟩⟩

/-- C25: the enumeration loop of `ScheduleEvent` terminates for every window and
every integer duration: the start advances by exactly 30 minutes per
iteration, the loop condition fails after
`max(0, floor((endTime - startTime - duration) / 30 min) + 1)` iterations and
not before, so with any larger number of allowed iterations the body runs
exactly that many times and the slice of candidates is that of `candidateSlots`. -/
theorem enumeration_loop_terminates (eventMap : EventMap) (startTime endTime : Time)
    (slotDuration : Duration) :
    (∀ k : Nat, (startTime.stepped (k + 1)).ns = (startTime.stepped k).ns + 30 * Minute) ∧
    ((loopFuel startTime endTime slotDuration : Nat) : Int) =
      max 0 ((endTime.ns - startTime.ns - slotDuration) / (30 * Minute) + 1) ∧
    (∀ k : Nat, k < loopFuel startTime endTime slotDuration →
      (startTime.stepped k).ns + slotDuration ≤ endTime.ns) ∧
    ¬ (startTime.stepped (loopFuel startTime endTime slotDuration)).ns + slotDuration ≤
      endTime.ns ∧
    (∀ extra : Nat,
      loopIterations endTime slotDuration (loopFuel startTime endTime slotDuration + extra)
        startTime = loopFuel startTime endTime slotDuration) ∧
    (∀ fuel : Nat,
      loopIterations endTime slotDuration fuel startTime ≤
        loopFuel startTime endTime slotDuration) ∧
    (∀ extra : Nat,
      candidateLoop eventMap endTime slotDuration
        (loopFuel startTime endTime slotDuration + extra) startTime =
        candidateSlots eventMap startTime endTime slotDuration) := by
  have hrun : ∀ k : Nat, k < loopFuel startTime endTime slotDuration →
      (startTime.stepped k).ns + slotDuration ≤ endTime.ns :=
    fun k hk => (lt_loopFuel_iff startTime endTime slotDuration k).1 hk
  have hstop : ¬ (startTime.stepped (loopFuel startTime endTime slotDuration)).ns +
      slotDuration ≤ endTime.ns := by
    intro h
    have := (lt_loopFuel_iff startTime endTime slotDuration _).2 h
    omega
  have hexact : ∀ extra : Nat,
      loopIterations endTime slotDuration (loopFuel startTime endTime slotDuration + extra)
        startTime = loopFuel startTime endTime slotDuration :=
    fun extra => loopIterations_eq endTime slotDuration _ extra startTime hrun hstop
  refine ⟨?_, ?_, hrun, hstop, hexact, ?_, ?_⟩
  · intro k
    simp only [Time.stepped, Time.Add]
  · simp only [loopFuel, Minute]
    omega
  · intro fuel
    by_cases hf : fuel ≤ loopFuel startTime endTime slotDuration
    · exact le_trans (loopIterations_le endTime slotDuration fuel startTime) hf
    · have hsum : fuel = loopFuel startTime endTime slotDuration +
          (fuel - loopFuel startTime endTime slotDuration) := by omega
      rw [hsum, hexact]
  · exact candidateSlots_fuel_enough eventMap startTime endTime slotDuration

/-- C26 (evaluation at the failing input): the store holds one event, `u1` busy
09:00-10:00, so no participant has two stored events that overlap; its overlap
query fails and it accepts inserts.  The request for `u1`, 60 minutes between
09:00 and 10:00, has pairwise distinct participant ids and succeeds with the
slot 09:00-10:00, and afterwards `u1` has two stored events that overlap: the
chosen slot overlaps the event stored before the call.  On the same store with
an overlap query that answers, the call returns the no-slot error and writes
nothing. -/
theorem failed_query_double_books :
    NoDoubleBooking ({ storeFullHour with up := false } : DB).events ∧
    requestNine.ParticipantIds.Nodup ∧
    ScheduleEvent parseAug9 insertionSort "20250809120000" { storeFullHour with up := false }
        requestNine =
      (Except.ok ⟨"meeting-20250809120000", "New Meeting", ["u1"], aug9 9 0, aug9 10 0⟩,
        ⟨[⟨1, "event1", "u1", "Design Meeting", aug9 9 0, aug9 10 0⟩,
          ⟨2, "meeting-20250809120000-u1", "u1", "New Meeting", aug9 9 0, aug9 10 0⟩],
          3, false, usersTable, true⟩) ∧
    ¬ NoDoubleBooking (ScheduleEvent parseAug9 insertionSort "20250809120000"
        { storeFullHour with up := false } requestNine).2.events ∧
    (∃ x ∈ ({ storeFullHour with up := false } : DB).events, x.UserID = "u1" ∧
      (aug9 9 0).ns < x.EndTime.ns ∧ (aug9 10 0).ns > x.StartTime.ns) ∧
    ScheduleEvent parseAug9 insertionSort "20250809120000" storeFullHour requestNine =
      (Except.error "no available time slot found for all participants", storeFullHour) := by
  refine ⟨by simp [NoDoubleBooking, storeFullHour], by decide, rfl, ?_, ?_, rfl⟩
  · have h : (ScheduleEvent parseAug9 insertionSort "20250809120000"
        { storeFullHour with up := false } requestNine).2.events =
        [⟨1, "event1", "u1", "Design Meeting", aug9 9 0, aug9 10 0⟩,
          ⟨2, "meeting-20250809120000-u1", "u1", "New Meeting", aug9 9 0, aug9 10 0⟩] := rfl
    rw [h]
    simp [NoDoubleBooking, aug9]
  · exact ⟨⟨1, "event1", "u1", "Design Meeting", aug9 9 0, aug9 10 0⟩, by simp [storeFullHour],
      rfl, by decide, by decide⟩

end SmartScheduler
